import Mathlib

/-!
Verification of the timeline model-building layer of the streamlit-timeline
repository, shallowly embedded in Lean.

The Python code manipulates loosely-typed JSON-like records (dicts, lists,
strings, booleans, numbers, None).  We embed those values as the inductive
type `J` below and translate each Python operation used by the source files
(`dict.get`, subscripting, iteration, truthiness, `==` against a string
literal, `" ".join`, ...) as a small total function.  Operations that can
raise a Python exception return `Except Unit _`, with `.error ()` standing
for "an exception was raised".

Modelling notes, referenced from the definitions below:
* Dicts are embedded as association lists in insertion order; a Python dict
  cannot hold a duplicate key, and every dict built by this code is built
  through insert-or-replace operations, which preserve key uniqueness.
* Equality of embedded values is structural (`J.beq`).  Python's
  `==` additionally identifies `True`/`False` with `1`/`0` and compares
  dicts key-wise; no record produced or compared by this codebase relies
  on either, and none of the properties below exercise them.
* Python `set(xs)` requires the elements to be hashable (lists/dicts are
  not) and otherwise raises; `mkPySet` mirrors exactly that check.  The
  stored set is kept as the underlying list: every downstream use of these
  sets (intersection non-emptiness, membership) depends only on membership,
  which is unchanged by deduplication.
-/

inductive J where
  | null : J
  | bool (b : Bool) : J
  | num (n : Int) : J
  | str (s : String) : J
  | arr (xs : List J) : J
  | obj (kvs : List (String × J)) : J

mutual

/-- Structural equality of embedded values (Python `==` restricted as in the
modelling notes above). -/
def J.beq : J → J → Bool
  | .null, .null => true
  | .bool a, .bool b => a == b
  | .num a, .num b => a == b
  | .str a, .str b => a == b
  | .arr xs, .arr ys => J.beqList xs ys
  | .obj xs, .obj ys => J.beqObj xs ys
  | _, _ => false

/-- Pointwise equality of embedded lists. -/
def J.beqList : List J → List J → Bool
  | [], [] => true
  | x :: xs, y :: ys => J.beq x y && J.beqList xs ys
  | _, _ => false

/-- Pointwise equality of embedded objects (Python dicts never hold a
duplicate key and this code never reorders one, so pointwise is exact). -/
def J.beqObj : List (String × J) → List (String × J) → Bool
  | [], [] => true
  | (k, v) :: xs, (k', v') :: ys => k == k' && J.beq v v' && J.beqObj xs ys
  | _, _ => false

end

/-- Python truthiness of an embedded value (`bool(v)`). -/
def J.truthy : J → Bool
  | .null => false
  | .bool b => b
  | .num n => n != 0
  | .str s => s != ""
  | .arr xs => !xs.isEmpty
  | .obj kvs => !kvs.isEmpty

/-- Python `v == s` for a string literal `s`: only a `str` can equal a `str`. -/
def J.eqStr : J → String → Bool
  | .str t, s => t = s
  | _, _ => false

/-- First-match association-list lookup (Python dict lookup; keys are unique
in every dict this code builds, so first-match is exact). -/
def alookup (kvs : List (String × J)) (k : String) : Option J :=
  match kvs with
  | [] => none
  | (k', v) :: rest => if k' = k then some v else alookup rest k

/-- Python `v.get(key, default)`: raises (`AttributeError`) unless `v` is a
dict; returns the stored value — even `None` — when the key is present. -/
def pyGet (v : J) (key : String) (dflt : J) : Except Unit J :=
  match v with
  | .obj kvs => .ok ((alookup kvs key).getD dflt)
  | _ => .error ()

/-- Python `v[key]`: `KeyError` when absent, `TypeError` on a non-dict. -/
def pySubscript (v : J) (key : String) : Except Unit J :=
  match v with
  | .obj kvs =>
    match alookup kvs key with
    | some x => .ok x
    | none => .error ()
  | _ => .error ()

/-- Python iteration (`for x in v`): lists yield elements, strings yield
one-character strings, dicts yield their keys; other values raise. -/
def pyIter : J → Except Unit (List J)
  | .arr xs => .ok xs
  | .str s => .ok (s.data.map fun c => .str (String.mk [c]))
  | .obj kvs => .ok (kvs.map fun kv => .str kv.fst)
  | _ => .error ()

/-- Python `v[0]` on the values this code indexes: lists and strings. -/
def pyIndexZero : J → Except Unit J
  | .arr (x :: _) => .ok x
  | .str s =>
    match s.data with
    | c :: _ => .ok (.str (String.mk [c]))
    | [] => .error ()
  | _ => .error ()

/-- All elements as strings, or `none` if any element is not a string. -/
def allStrings : List J → Option (List String)
  | [] => some []
  | .str s :: rest => (allStrings rest).map (s :: ·)
  | _ :: _ => none

/-- `" ".join(vs)`: every element must be a string, else `TypeError`. -/
def pyJoinSpace (vs : List J) : Except Unit J :=
  match allStrings vs with
  | some ss => .ok (.str (String.intercalate " " ss))
  | none => .error ()

/-- `extract_property_value` (src/timeline/model.py lines 17–35), translated
branch by branch.  The Python `elif` guards of the form
`prop_data.get("…")` are hoisted below the successful
`prop_data.get("type", "")`: that call has already established that
`prop_data` is a dict, so these lookups are total and effect-free and
hoisting them is observationally identical to the source's short-circuit
evaluation. -/
def extract_property_value (properties : J) (prop_name : String) : Except Unit J := do
  let prop_data ← pyGet properties prop_name (.obj [])
  let detected_type ← pyGet prop_data "type" (.str "")
  let titleG ← pyGet prop_data "title" .null
  let richG ← pyGet prop_data "rich_text" .null
  let selectG ← pyGet prop_data "select" .null
  let relationG ← pyGet prop_data "relation" .null
  if detected_type.eqStr "title" && titleG.truthy then
    -- return prop_data["title"][0].get("plain_text", "") if prop_data["title"] else ""
    let cond ← pySubscript prop_data "title"
    if cond.truthy then do
      let first ← pyIndexZero cond
      pyGet first "plain_text" (.str "")
    else
      pure (.str "")
  else if detected_type.eqStr "rich_text" && richG.truthy then
    let runs ← pySubscript prop_data "rich_text"
    let items ← pyIter runs
    let texts ← items.mapM (fun item => pyGet item "plain_text" (.str ""))
    pyJoinSpace texts
  else if detected_type.eqStr "url" then
    pyGet prop_data "url" (.str "")
  else if detected_type.eqStr "checkbox" then
    pyGet prop_data "checkbox" (.bool false)
  else if detected_type.eqStr "select" && selectG.truthy then
    let sel ← pySubscript prop_data "select"
    pyGet sel "name" (.str "")
  else if detected_type.eqStr "relation" && relationG.truthy then
    let rels ← pySubscript prop_data "relation"
    let items ← pyIter rels
    let ids ← items.mapM (fun rel => pyGet rel "id" (.str ""))
    pure (.arr ids)
  else
    pure (.str "")

/-- `EventNode` (src/timeline/model.py lines 7–15).  The constructor stores
whatever `extract_property_value` produced, so the fields hold embedded
values, not Lean strings/booleans — exactly as the untyped Python object
does. -/
structure EventNode where
  notion_id : J
  title : J
  url : J
  is_chapter_heading : J
  next_events : List J
  prior_events : List J

/-- Title resolution `extract(props, "Name") or extract(props, "Title") or
"Untitled"` with Python `or`'s short-circuit (the second extraction is not
evaluated — and so cannot raise — when the first is truthy).  Used inline in
`parse_entries_to_nodes` (model.py line 45) and as `_title_from_props`
(model.py lines 82–87). -/
def title_from_props (properties : J) : Except Unit J := do
  let n ← extract_property_value properties "Name"
  if n.truthy then pure n
  else do
    let t ← extract_property_value properties "Title"
    if t.truthy then pure t
    else pure (.str "Untitled")

/-- The body of `parse_entries_to_nodes`'s loop for one entry (model.py
lines 41–59): the key the node is stored under, and the node. -/
def parseEntry (entry : J) : Except Unit (J × EventNode) := do
  let notion_id ← pyGet entry "id" (.str "")
  let properties ← pyGet entry "properties" (.obj [])
  let title ← title_from_props properties
  let url ← extract_property_value properties "URL"
  let is_chapter_heading ← extract_property_value properties "Chapter Heading"
  let next_events ← extract_property_value properties "Next Event"
  let prior_events ← extract_property_value properties "Prior Event"
  pure (notion_id,
    { notion_id := notion_id, title := title, url := url,
      is_chapter_heading := is_chapter_heading,
      -- `if isinstance(next_events, list)`: only a list value populates the field
      next_events := match next_events with | .arr xs => xs | _ => [],
      prior_events := match prior_events with | .arr xs => xs | _ => [] })

/-- `nodes[notion_id] = node` on a Python dict: replace in place when the key
exists (keys of such a dict are unique), append otherwise. -/
def dictInsertNode (m : List (J × EventNode)) (k : J) (v : EventNode) :
    List (J × EventNode) :=
  match m with
  | [] => [(k, v)]
  | (k', v') :: rest =>
    if J.beq k' k then (k', v) :: rest else (k', v') :: dictInsertNode rest k v

/-- The loop of `parse_entries_to_nodes` over the remaining entries, carrying
the dict built so far. -/
def parseEntriesGo (acc : List (J × EventNode)) :
    List J → Except Unit (List (J × EventNode))
  | [] => .ok acc
  | e :: rest => do
    let (nid, node) ← parseEntry e
    parseEntriesGo (dictInsertNode acc nid node) rest

/-- `parse_entries_to_nodes` (model.py lines 37–61): the id → EventNode dict,
in insertion order. -/
def parse_entries_to_nodes (entries : List J) : Except Unit (List (J × EventNode)) :=
  parseEntriesGo [] entries

/-- Dict lookup in an id → EventNode dict. -/
def jlookup (m : List (J × EventNode)) (k : J) : Option EventNode :=
  match m with
  | [] => none
  | (k', v) :: rest => if J.beq k' k then some v else jlookup rest k

/-- Whether an entry's `entry.get("id", "")` resolves (without raising) to
exactly `id`. -/
def idMatches (e : J) (id : J) : Bool :=
  match pyGet e "id" (.str "") with
  | .ok v => J.beq v id
  | .error _ => false

/-- The last entry of the list whose id resolves to `id` (entries with no
"id" key resolve to the empty string and so all share the `.str ""` key). -/
def lastEntryWithId : List J → J → Option J
  | [], _ => none
  | e :: rest, id =>
    match lastEntryWithId rest id with
    | some x => some x
    | none => if idMatches e id then some e else none

/-- `chapter` as computed for one entry by `build_model_from_entries`
(model.py lines 67–70): the Chapter property's selected name when the
property is a non-empty `select`, the empty string otherwise.  The guard
`chapter_prop.get("select")` is evaluated only after
`chapter_prop.get("type") == "select"`, as in the source. -/
def chapterOf (entry : J) : Except Unit J := do
  let props ← pyGet entry "properties" (.obj [])
  let chapter_prop ← pyGet props "Chapter" (.obj [])
  let ty ← pyGet chapter_prop "type" .null
  if ty.eqStr "select" then
    let sel ← pyGet chapter_prop "select" .null
    if sel.truthy then
      let s ← pySubscript chapter_prop "select"
      pyGet s "name" (.str "")
    else pure (.str "")
  else pure (.str "")

/-- `entries_by_chapter.setdefault(chapter, []).append(entry)`: append to the
existing group, or create a new group at the end of the dict. -/
def groupAppend (m : List (J × List J)) (k : J) (e : J) : List (J × List J) :=
  match m with
  | [] => [(k, [e])]
  | (k', es) :: rest =>
    if J.beq k' k then (k', es ++ [e]) :: rest else (k', es) :: groupAppend rest k e

/-- The grouping loop of `build_model_from_entries` (model.py lines 65–72):
entries with a truthy chapter value are appended to their chapter's group;
the rest are dropped. -/
def groupEntries (acc : List (J × List J)) : List J → Except Unit (List (J × List J))
  | [] => .ok acc
  | e :: rest => do
    let ch ← chapterOf e
    groupEntries (if ch.truthy then groupAppend acc ch e else acc) rest

/-- Reading the grouped dict with string keys.  Python's subsequent
`sorted(chapters_set)` / `ch.startswith(...)` raise (`TypeError` /
`AttributeError`) as soon as any chapter key is not a string — every
non-string truthy chapter value leads to an exception before the model is
assembled — so the embedding surfaces the same exception here. -/
def toStrKeyed : List (J × List J) → Except Unit (List (String × List J))
  | [] => .ok []
  | (.str s, es) :: rest => do
    let tl ← toStrKeyed rest
    pure ((s, es) :: tl)
  | (_, _) :: _ => .error ()

/-- First-match lookup in a string-keyed association list (dict lookup; all
such dicts in this code have unique keys). -/
def alookupS {α : Type} (kvs : List (String × α)) (k : String) : Option α :=
  match kvs with
  | [] => none
  | (k', v) :: rest => if k' = k then some v else alookupS rest k

/-- Lexicographic-by-code-point comparison of character lists: exactly the
order Python's `sorted` uses on strings (a proper prefix precedes). -/
def charListLe : List Char → List Char → Bool
  | [], _ => true
  | _ :: _, [] => false
  | c :: cs, d :: ds =>
    if c.toNat < d.toNat then true
    else if d.toNat < c.toNat then false
    else charListLe cs ds

/-- Python `s <= t` on strings. -/
def strLe (s t : String) : Bool :=
  charListLe s.data t.data

/-- Insert into a `strLe`-sorted list, keeping it sorted. -/
def insortStr (x : String) : List String → List String
  | [] => [x]
  | y :: ys => if strLe x y then x :: y :: ys else y :: insortStr x ys

/-- Python `sorted` on strings: lexicographic by code point.  Elements this
code sorts are pairwise-distinct dict keys, for which every sorting
algorithm produces the same list, so insertion sort is exact. -/
def sortStr : List String → List String
  | [] => []
  | x :: xs => insortStr x (sortStr xs)

/-- Python `s.startswith(p)`. -/
def strStartsWithAux : List Char → List Char → Bool
  | [], _ => true
  | _ :: _, [] => false
  | p :: ps, c :: cs => if p = c then strStartsWithAux ps cs else false

/-- Python `s.startswith(p)` (`p` a prefix of `s`). -/
def strStartsWith (s p : String) : Bool :=
  strStartsWithAux p.data s.data

/-- The distinct elements of a list, first occurrences kept: the key set
`set(list(chapters) + aside_chapters)` iterated over. -/
def dedupKeys : List String → List String
  | [] => []
  | x :: xs => x :: (dedupKeys xs).filter (fun y => y ≠ x)

/-- Whether a value may be a member of a Python set (lists and dicts are
unhashable and make `set(...)` raise `TypeError`). -/
def J.hashable : J → Bool
  | .arr _ => false
  | .obj _ => false
  | _ => true

/-- `set(titles)`: raises on an unhashable element; the stored set is kept as
the underlying list (see the modelling notes: every downstream use depends
only on membership). -/
def mkPySet (titles : List J) : Except Unit (List J) :=
  if titles.all J.hashable then .ok titles else .error ()

/-- Titles of the entries of one chapter whose `flag` property extracts to a
truthy value (the shared body of model.py lines 91–96 and 102–106). -/
def collectFlaggedTitles (flag : String) : List J → Except Unit (List J)
  | [] => .ok []
  | e :: rest => do
    let props ← pyGet e "properties" (.obj [])
    let v ← extract_property_value props flag
    if v.truthy then do
      let t ← title_from_props props
      let tl ← collectFlaggedTitles flag rest
      pure (t :: tl)
    else
      collectFlaggedTitles flag rest

/-- `headings_by_aside` (model.py lines 89–96): every aside chapter maps to
the set of titles of its entries flagged "Chapter Heading". -/
def buildHeadings (ebc : List (String × List J)) :
    List String → Except Unit (List (String × List J))
  | [] => .ok []
  | aside :: rest => do
    let titles ← collectFlaggedTitles "Chapter Heading" ((alookupS ebc aside).getD [])
    let tset ← mkPySet titles
    let tl ← buildHeadings ebc rest
    pure ((aside, tset) :: tl)

/-- `outlinks_by_main` (model.py lines 98–108): every non-prologue main
chapter with at least one entry flagged "Aside Heading" maps to the set of
those entries' titles (`set(titles)` is only evaluated — and can only
raise — when `titles` is non-empty, as in the source). -/
def buildOutlinks (ebc : List (String × List J)) :
    List String → Except Unit (List (String × List J))
  | [] => .ok []
  | main :: rest =>
    if main = "Prologue" then buildOutlinks ebc rest
    else do
      let titles ← collectFlaggedTitles "Aside Heading" ((alookupS ebc main).getD [])
      if titles.isEmpty then
        buildOutlinks ebc rest
      else do
        let tset ← mkPySet titles
        let tl ← buildOutlinks ebc rest
        pure ((main, tset) :: tl)

/-- `out_titles & head_titles` tested for non-emptiness. -/
def intersectNonempty (a b : List J) : Bool :=
  a.any (fun x => b.any (fun y => J.beq x y))

/-- `chapter_aside_mapping` (model.py lines 110–114).  The source's inner
loop `setdefault(main, []).append(aside)` visits the asides in dict order
and each main chapter at most once, so a main chapter's list is exactly the
matching asides in order, and mains without a match never get an entry. -/
def buildMapping (outs heads : List (String × List J)) : List (String × List String) :=
  match outs with
  | [] => []
  | (main, ot) :: rest =>
    let asides := (heads.filter (fun p => intersectNonempty ot p.snd)).map Prod.fst
    if asides.isEmpty then buildMapping rest heads
    else (main, asides) :: buildMapping rest heads

/-- `nodes_by_chapter` (model.py lines 116–119), iterating the chapters in
list order.  The source iterates `set(list(chapters) + aside_chapters)`,
whose order is unspecified; only per-key lookups of this dict are ever
observed, so the iteration order is fixed here without loss. -/
def buildNodes (ebc : List (String × List J)) :
    List String → Except Unit (List (String × List (J × EventNode)))
  | [] => .ok []
  | ch :: rest => do
    let ns ← parse_entries_to_nodes ((alookupS ebc ch).getD [])
    let tl ← buildNodes ebc rest
    pure ((ch, ns) :: tl)

/-- The aggregate returned by `build_model_from_entries`
(model.py lines 121–129). -/
structure TimelineModel where
  chapters : List String
  aside_chapters : List String
  entries_by_chapter : List (String × List J)
  nodes_by_chapter : List (String × List (J × EventNode))
  chapter_aside_mapping : List (String × List String)
  headings_by_aside : List (String × List J)
  entry_count : Nat

/-- `build_model_from_entries` (model.py lines 63–129), step by step in the
source's order. -/
def build_model_from_entries (all_entries : List J) : Except Unit TimelineModel := do
  let grouped ← groupEntries [] all_entries
  let entries_by_chapter ← toStrKeyed grouped
  let chapters_set := entries_by_chapter.map Prod.fst
  let chapters :=
    (if chapters_set.contains "Prologue" then ["Prologue"] else []) ++
      (sortStr chapters_set).filter (fun ch => strStartsWith ch "Chapter")
  let aside_chapters := sortStr (chapters_set.filter (fun ch => strStartsWith ch "Aside"))
  let headings_by_aside ← buildHeadings entries_by_chapter aside_chapters
  let outlinks_by_main ← buildOutlinks entries_by_chapter chapters
  let chapter_aside_mapping := buildMapping outlinks_by_main headings_by_aside
  let nodes_by_chapter ← buildNodes entries_by_chapter (dedupKeys (chapters ++ aside_chapters))
  pure {
    chapters := chapters,
    aside_chapters := aside_chapters,
    entries_by_chapter := entries_by_chapter,
    nodes_by_chapter := nodes_by_chapter,
    chapter_aside_mapping := chapter_aside_mapping,
    headings_by_aside := headings_by_aside,
    entry_count := all_entries.length }

/-- The snapshot file as the code can observe it: missing, unreadable or
unparseable (`json.load` raising — swallowed by `load_snapshot_from_disk`),
or holding a parsed JSON value. -/
inductive DiskState where
  | absent : DiskState
  | corrupt : DiskState
  | content (data : J) : DiskState

/-- The payload written by `save_snapshot_to_disk` (src/timeline/cache.py
lines 30–44), with the wall-clock `datetime.now(...).isoformat()` passed in
as `fetched_at`.  Disk I/O failure (swallowed by the source) is environment
nondeterminism outside this embedding: the function returns the written
content. -/
def save_snapshot_to_disk (database_id : String) (all_entries : List J)
    (fetched_at : String) : J :=
  .obj [("database_id", .str database_id),
        ("fetched_at", .str fetched_at),
        ("all_entries", .arr all_entries),
        ("schema_version", .num 1)]

/-- `load_snapshot_from_disk` (cache.py lines 11–28): absent file, unreadable
file, non-dict payload, mismatched `database_id`, or non-list `all_entries`
all yield `none`. -/
def load_snapshot_from_disk (database_id : String) (disk : DiskState) :
    Option (List J) :=
  match disk with
  | .absent => none
  | .corrupt => none
  | .content data =>
    match data with
    | .obj kvs =>
      -- data.get("database_id") != database_id
      if !(J.beq ((alookup kvs "database_id").getD .null) (.str database_id)) then none
      else
        match (alookup kvs "all_entries").getD .null with
        | .arr entries => some entries
        | _ => none
    | _ => none

/-- One page request: the external collaborator
`_notion_client.databases.query(database_id=…, start_cursor=…)`, with
`.error ()` for a raised request error.  A parameter of the embedding, as
the client is external to the repository. -/
def NotionClient : Type := String → Option J → Except Unit J

/-- The pagination loop of `get_all_database_entries` (src/timeline/notion.py
lines 22–37) on `fuel` remaining iterations: `none` models a loop that has
not terminated within the fuel (never the case for a client whose cursor
chain is finite), `some (.error ())` a raised exception, `some (.ok acc)`
normal exit with the accumulated results. -/
def fetch_pages (client : NotionClient) (database_id : String) :
    Nat → Option J → List J → Option (Except Unit (List J))
  | 0, _, _ => none
  | fuel + 1, cursor, acc =>
    match client database_id cursor with
    | .error _ => some (.error ())
    | .ok response =>
      -- all_entries.extend(response["results"])
      match pySubscript response "results" with
      | .error _ => some (.error ())
      | .ok results =>
        match pyIter results with
        | .error _ => some (.error ())
        | .ok items =>
          match pyGet response "has_more" (.bool false),
                pyGet response "next_cursor" .null with
          | .ok has_more, .ok next_cursor =>
            if has_more.truthy then
              fetch_pages client database_id fuel
                (if next_cursor.truthy then some next_cursor else none) (acc ++ items)
            else
              some (.ok (acc ++ items))
          | _, _ => some (.error ())

/-- `get_all_database_entries` (notion.py lines 18–40): the whole loop runs
inside one `try`, and any exception is caught, surfaced via `st.error`, and
turned into the empty list. -/
def get_all_database_entries (client : NotionClient) (database_id : String)
    (fuel : Nat) : Option (List J) :=
  match fetch_pages client database_id fuel none [] with
  | none => none
  | some (.ok l) => some l
  | some (.error _) => some []

/- Python `str(v)` as interpolated by the f-strings of
`create_graphviz_flowchart`.  Every value this code ever interpolates is a
string; for completeness the other scalars follow Python, and the `repr`
of lists/dicts is approximated (string escaping inside `repr` omitted). -/
mutual

/-- Python `str(v)`. -/
def J.pyStr : J → String
  | .str s => s
  | v => J.pyRepr v

/-- Python `repr(v)` (approximate for strings nested in containers). -/
def J.pyRepr : J → String
  | .null => "None"
  | .bool true => "True"
  | .bool false => "False"
  | .num n => toString n
  | .str s => "'" ++ s ++ "'"
  | .arr xs => "[" ++ J.pyReprList xs ++ "]"
  | .obj kvs => "\x7b" ++ J.pyReprObj kvs ++ "\x7d"

/-- `repr` of a list's elements, comma-separated. -/
def J.pyReprList : List J → String
  | [] => ""
  | [x] => J.pyRepr x
  | x :: rest => J.pyRepr x ++ ", " ++ J.pyReprList rest

/-- `repr` of a dict's items, comma-separated. -/
def J.pyReprObj : List (String × J) → String
  | [] => ""
  | [(k, v)] => "'" ++ k ++ "': " ++ J.pyRepr v
  | (k, v) :: rest => "'" ++ k ++ "': " ++ J.pyRepr v ++ ", " ++ J.pyReprObj rest

end

/-- Lookup in a dict keyed by embedded values (`entry_props_by_id.get(id)`,
`entries_by_chapter` while grouping); keys of such a dict are unique, so
first-match is exact. -/
def jalookup {α : Type} (kvs : List (J × α)) (k : J) : Option α :=
  match kvs with
  | [] => none
  | (k', v) :: rest => if J.beq k' k then some v else jalookup rest k

/-- `find_aside_for_title` (src/timeline/graph.py lines 62–68): the first
aside whose heading-title set contains the node's title, or `none`; `none`
outright when the dict argument is falsy (absent or empty). -/
def find_aside_for_title (ath : Option (List (String × List J))) (node_title : J) :
    Option String :=
  match ath with
  | none => none
  | some l =>
    if l.isEmpty then none
    else (l.find? (fun p => p.snd.any (fun t => J.beq node_title t))).map Prod.fst

/-- Python `s.replace(pat, repl)` for a one-character pattern — the only
shape this code uses (`\\`, `"`, newline, carriage return, tab, space). -/
def replaceChars (s : String) (pat : Char) (repl : String) : String :=
  String.mk ((s.data.map (fun c => if c = pat then repl.data else [c])).flatten)

/-- The DOT escaping chain applied to the wrapped title (graph.py
lines 74–79). -/
def dotEscape (wrapped : String) : String :=
  replaceChars (replaceChars (replaceChars (replaceChars (replaceChars
    wrapped '\\' "\\\\") '"' "\\\"") '\n' "\\n") '\r' "") '\t' " "

/-- The `node_url` / `is_aside_outlink` computation of the node loop
(graph.py lines 82–93): when the precomputed `entry_props_by_id` is
non-empty and holds a truthy property bag for this node's id whose
"Aside Heading" extracts truthy and the node has a truthy url, the node is
an aside outlink; if moreover its title belongs to some aside's
heading-title set, the url is rewritten to the in-app chapter reference. -/
def nodeUrlOutlink (epbi : List (J × J)) (ath : Option (List (String × List J)))
    (nid : J) (node : EventNode) : Except Unit (J × Bool) :=
  if !epbi.isEmpty then
    match jalookup epbi nid with
    | some props =>
      if props.truthy then do
        let aside_heading ← extract_property_value props "Aside Heading"
        if aside_heading.truthy && node.url.truthy then
          match find_aside_for_title ath node.title with
          | some matching_aside =>
            pure (J.str ("?chapter=" ++ replaceChars matching_aside ' ' "%20"), true)
          | none => pure (node.url, true)
        else pure (node.url, false)
      else pure (node.url, false)
    | none => pure (node.url, false)
  else pure (node.url, false)

/-- The four-way DOT line emission of the node loop (graph.py
lines 101–112), after the label has received the internal-link marker. -/
def emitNodeLine (is_simple_graph is_aside : Bool)
    (event_color font_color edge_color dot_id : String) (node : EventNode)
    (safe_title tooltip_title : String) (node_url : J)
    (is_aside_outlink : Bool) : String :=
  let base_font_size : Nat := if is_simple_graph || is_aside then 12 else 11
  let heading_font_size := base_font_size + 2
  if node.is_chapter_heading.truthy then
    if node_url.truthy then
      let target := if is_aside_outlink then "_self" else "_blank"
      "    " ++ dot_id ++ " [label=\"" ++ safe_title ++
        "\", fillcolor=\"#f5f5f5\", fontcolor=" ++ font_color ++
        ", penwidth=1, fontsize=" ++ toString heading_font_size ++
        ", href=\"" ++ node_url.pyStr ++ "\", target=\"" ++ target ++
        "\", tooltip=\"" ++ tooltip_title ++ "\", color=\"#000000\", fontweight=\"bold\"];"
    else
      "    " ++ dot_id ++ " [label=\"" ++ safe_title ++
        "\", fillcolor=\"#f5f5f5\", fontcolor=" ++ font_color ++
        ", penwidth=1, fontsize=" ++ toString heading_font_size ++
        ", tooltip=\"" ++ tooltip_title ++ "\", color=\"#000000\", fontweight=\"bold\"];"
  else
    if node_url.truthy then
      let target := if is_aside_outlink then "_self" else "_blank"
      "    " ++ dot_id ++ " [label=\"" ++ safe_title ++
        "\", fillcolor=\"" ++ event_color ++ "\", fontcolor=" ++ font_color ++
        ", fontsize=" ++ toString base_font_size ++
        ", href=\"" ++ node_url.pyStr ++ "\", target=\"" ++ target ++
        "\", tooltip=\"" ++ tooltip_title ++ "\", color=\"" ++ edge_color ++ "\"];"
    else
      "    " ++ dot_id ++ " [label=\"" ++ safe_title ++
        "\", fillcolor=\"" ++ event_color ++ "\", fontcolor=" ++ font_color ++
        ", fontsize=" ++ toString base_font_size ++
        ", tooltip=\"" ++ tooltip_title ++ "\", color=\"" ++ edge_color ++ "\"];"

/-- The body of `create_graphviz_flowchart`'s node loop for one node
(graph.py lines 70–112), producing that node's DOT line.  `fill` is Python's
`textwrap.fill` (an external library function, a parameter of the
embedding); applied to a non-string title it raises, hence the `.str`
requirement.  `epbi` is the precomputed `entry_props_by_id`. -/
def nodeLine (fill : String → Nat → String) (is_simple_graph is_aside : Bool)
    (event_color font_color edge_color : String)
    (epbi : List (J × J)) (ath : Option (List (String × List J)))
    (dot_id : String) (nid : J) (node : EventNode) : Except Unit String := do
  let title ← match node.title with
    | .str s => Except.ok s
    | _ => Except.error ()
  let wrapped_title := fill title 30
  let safe_title := dotEscape wrapped_title
  let tooltip_title := replaceChars wrapped_title '\n' " "
  let (node_url, is_aside_outlink) ← nodeUrlOutlink epbi ath nid node
  let safe_title := if is_aside_outlink then "🔗 " ++ safe_title else safe_title
  pure (emitNodeLine is_simple_graph is_aside event_color font_color edge_color
    dot_id node safe_title tooltip_title node_url is_aside_outlink)

/-- `clean_chapter_name` / `graph_name` (graph.py lines 34–35).  Python's
`str.isalnum` is Unicode-aware; `Char.isAlphanum` is its restriction to
ASCII (every chapter label this project uses is ASCII, and no property
below touches this value). -/
def clean_chapter_name (chapter_name : String) : String :=
  if chapter_name ≠ "" then
    String.mk (chapter_name.data.map (fun c => if c.isAlphanum then c else '_'))
  else "timeline"

/-- The adaptive color scheme (graph.py lines 17–32) as
`(chapter_color, event_color, edge_color, font_color)`; `is_dark_mode` is
read from the external Streamlit config and is a parameter of the
embedding. -/
def graphColors (is_dark_mode : Bool) : String × String × String × String :=
  if is_dark_mode then ("#5dade2", "#85c1e9", "#ffffff", "black")
  else ("#ffffff", "#ffffff", "#666666", "black")

/-- The fixed header lines of the DOT output (graph.py lines 41–58). -/
def dotHeader (graph_name edge_color : String) (compact : Bool) : List String :=
  if compact then
    ["digraph " ++ graph_name ++ " \x7b",
     "    rankdir=TB;",
     "    node [shape=box, style=\"rounded,filled\", fontname=\"Helvetica\", fontsize=12, width=3, height=1.2, margin=0.2];",
     "    graph [bgcolor=transparent, nodesep=0.5, ranksep=0.8, size=\"10,8!\", ratio=fill];",
     "    edge [color=\"" ++ edge_color ++ "\", penwidth=1, arrowsize=0.6];",
     ""]
  else
    ["digraph " ++ graph_name ++ " \x7b",
     "    rankdir=TB;",
     "    node [shape=box, style=\"rounded,filled\", fontname=\"Helvetica\", fontsize=11, margin=0.2];",
     "    graph [bgcolor=transparent, nodesep=0.3, ranksep=0.5, ratio=auto, margin=0.2];",
     "    edge [color=\"" ++ edge_color ++ "\", penwidth=1, arrowsize=0.6];",
     ""]

/-- `{e.get("id", ""): e.get("properties", {}) for e in (current_entries or [])}`
(graph.py line 60): a dict comprehension, later duplicate ids overwriting
earlier ones. -/
def jdictInsert (m : List (J × J)) (k v : J) : List (J × J) :=
  match m with
  | [] => [(k, v)]
  | (k', v') :: rest =>
    if J.beq k' k then (k', v) :: rest else (k', v') :: jdictInsert rest k v

/-- The `entry_props_by_id` comprehension loop. -/
def buildEntryProps (acc : List (J × J)) : List J → Except Unit (List (J × J))
  | [] => .ok acc
  | e :: rest => do
    let id ← pyGet e "id" (.str "")
    let props ← pyGet e "properties" (.obj [])
    buildEntryProps (jdictInsert acc id props) rest

/-- `notion_id_to_dot_id[next_notion_id]`: the DOT id of the node whose key
equals the given id.  The source enumerates `nodes.keys()` (unique, as dict
keys) into `node_{i}`; here the position of the first matching key. -/
def dotIdForGo (i : Nat) (nodes : List (J × EventNode)) (target : J) : Option String :=
  match nodes with
  | [] => none
  | (k, _) :: rest =>
    if J.beq k target then some ("node_" ++ toString i)
    else dotIdForGo (i + 1) rest target

/-- See `dotIdForGo`: the search started at index 0. -/
def dotIdFor (nodes : List (J × EventNode)) (target : J) : Option String :=
  dotIdForGo 0 nodes target

/-- The edge loop (graph.py lines 116–121): one `a -> b;` line per
`next_events` reference whose target id is a key of the node dict. -/
def edgeLinesGo (nodes : List (J × EventNode)) :
    Nat → List (J × EventNode) → List String
  | _, [] => []
  | i, (_, node) :: rest =>
    node.next_events.filterMap (fun nxt =>
      (dotIdFor nodes nxt).map
        (fun d => "    node_" ++ toString i ++ " -> " ++ d ++ ";")) ++
      edgeLinesGo nodes (i + 1) rest

/-- See `edgeLinesGo`: the loop started at index 0 over the whole dict. -/
def edgeLines (nodes : List (J × EventNode)) : List String :=
  edgeLinesGo nodes 0 nodes

/-- The node loop of `create_graphviz_flowchart`, with the enumeration index
giving each node's DOT id. -/
def nodeLinesGo (fill : String → Nat → String) (is_simple_graph is_aside : Bool)
    (event_color font_color edge_color : String)
    (epbi : List (J × J)) (ath : Option (List (String × List J))) :
    Nat → List (J × EventNode) → Except Unit (List String)
  | _, [] => .ok []
  | i, (nid, node) :: rest => do
    let line ← nodeLine fill is_simple_graph is_aside event_color font_color
      edge_color epbi ath ("node_" ++ toString i) nid node
    let tl ← nodeLinesGo fill is_simple_graph is_aside event_color font_color
      edge_color epbi ath (i + 1) rest
    pure (line :: tl)

/-- `create_graphviz_flowchart` (graph.py lines 7–124) as the list of DOT
lines it joins.  `aside_mapping` is accepted and unused, as in the source. -/
def create_graphviz_dot_lines (fill : String → Nat → String) (is_dark_mode : Bool)
    (nodes : List (J × EventNode)) (chapter_name : String)
    (aside_mapping : Option (List (String × List String)))
    (current_entries : Option (List J))
    (ath : Option (List (String × List J))) : Except Unit (List String) := do
  let _ := aside_mapping
  let (_chapter_color, event_color, edge_color, font_color) := graphColors is_dark_mode
  let graph_name := "timeline_" ++ clean_chapter_name chapter_name
  let node_count := nodes.length
  let is_simple_graph := node_count ≤ 5
  let is_aside := if chapter_name ≠ "" then strStartsWith chapter_name "Aside" else false
  let header := dotHeader graph_name edge_color (is_simple_graph || is_aside)
  let epbi ← buildEntryProps [] (current_entries.getD [])
  let nodeL ← nodeLinesGo fill is_simple_graph is_aside event_color font_color
    edge_color epbi ath 0 nodes
  pure (header ++ nodeL ++ [""] ++ edgeLines nodes ++ ["\x7d"])

/-- `create_graphviz_flowchart`'s return value: the DOT lines joined with
newlines. -/
def create_graphviz_flowchart (fill : String → Nat → String) (is_dark_mode : Bool)
    (nodes : List (J × EventNode)) (chapter_name : String)
    (aside_mapping : Option (List (String × List String)))
    (current_entries : Option (List J))
    (ath : Option (List (String × List J))) : Except Unit String :=
  (create_graphviz_dot_lines fill is_dark_mode nodes chapter_name aside_mapping
    current_entries ath).map (String.intercalate "\n")

/-- The process state observable by `build_timeline_model` (model.py
lines 131–144): the external database's current records (what a fresh fetch
returns), the snapshot file, `st.cache_data`'s process-local memo table for
this function (keyed on the argument pair, never expiring — `ttl=None`),
the number of external fetches performed, and the wall clock. -/
structure World where
  source_entries : List J
  disk : DiskState
  memo : List ((String × Bool) × TimelineModel)
  fetch_count : Nat
  now : String

/-- Lookup in the `st.cache_data` memo table. -/
def memoLookup (memo : List ((String × Bool) × TimelineModel))
    (k : String × Bool) : Option TimelineModel :=
  match memo with
  | [] => none
  | (k', v) :: rest => if k' = k then some v else memoLookup rest k

/-- The undecorated body of `build_timeline_model` (model.py lines 132–144):
snapshot load unless forced, else fetch-save-build.  The external fetch is
modelled as reading the database's current records (a failed fetch would
yield `[]` by `get_all_database_entries`'s contract and changes nothing
about the caching behaviour at issue). -/
def build_timeline_model_body (database_id : String) (force_refresh : Bool)
    (w : World) : Except Unit TimelineModel × World :=
  let entries? : Option (List J) :=
    if force_refresh then none else load_snapshot_from_disk database_id w.disk
  match entries? with
  | some entries => (build_model_from_entries entries, w)
  | none =>
    let entries := w.source_entries
    let w' := { w with
      fetch_count := w.fetch_count + 1,
      disk := .content (save_snapshot_to_disk database_id entries w.now) }
    (build_model_from_entries entries, w')

/-- `build_timeline_model` as decorated by `@st.cache_data(ttl=None)`
(model.py line 131): a memoized call keyed on `(database_id, force_refresh)`
— on a hit the body does not run at all; on a miss the body runs and a
successful result is recorded under that key (Streamlit does not cache a
raised exception).  No call ever removes or replaces a memo entry. -/
def build_timeline_model (database_id : String) (force_refresh : Bool)
    (w : World) : Except Unit TimelineModel × World :=
  match memoLookup w.memo (database_id, force_refresh) with
  | some m => (.ok m, w)
  | none =>
    match build_timeline_model_body database_id force_refresh w with
    | (.ok m, w') => (.ok m, { w' with memo := ((database_id, force_refresh), m) :: w'.memo })
    | (.error e, w') => (.error e, w')

/-- "Some record grouped under chapter `ch` of model `m` has a truthy `flag`
property and resolves to title `t`" — the property the chapter↔aside mapping
is specified by, stated over the model's own per-chapter record lists. -/
def flaggedTitleIn (m : TimelineModel) (ch : String) (flag : String) (t : J) : Prop :=
  ∃ e ∈ (alookupS m.entries_by_chapter ch).getD [],
    ∃ props v,
      pyGet e "properties" (.obj []) = .ok props ∧
      extract_property_value props flag = .ok v ∧ v.truthy = true ∧
      title_from_props props = .ok t

/-- The default (empty) model, for reading a build result off totally. -/
instance : Inhabited TimelineModel :=
  ⟨⟨[], [], [], [], [], [], 0⟩⟩

/-- The model a successful build produces (the empty model on an exception);
used to state concrete witnesses without spelling the aggregate out. -/
def modelOf (l : List J) : TimelineModel :=
  match build_model_from_entries l with
  | .ok m => m
  | .error _ => default

/-- The node dict a successful parse produces (empty on an exception);
used to state concrete witnesses. -/
def nodesOf (l : List J) : List (J × EventNode) :=
  match parse_entries_to_nodes l with
  | .ok ns => ns
  | .error _ => []

/-- A raw record in the shape the repository's own tests build
(tests/test_model.py, `make_entry`); concrete input for witnesses. -/
def sampleEntry (nid title chapter : String) (url : Option String)
    (chHead asHead : Bool) (nexts : List String) : J :=
  .obj [("id", .str nid),
        ("properties", .obj [
          ("Name", .obj [("type", .str "title"),
                         ("title", .arr [.obj [("plain_text", .str title)]])]),
          ("Chapter", .obj [("type", .str "select"),
                            ("select", .obj [("name", .str chapter)])]),
          ("URL", .obj [("type", .str "url"),
                        ("url", match url with | some u => .str u | none => .null)]),
          ("Chapter Heading", .obj [("type", .str "checkbox"),
                                    ("checkbox", .bool chHead)]),
          ("Aside Heading", .obj [("type", .str "checkbox"),
                                  ("checkbox", .bool asHead)]),
          ("Next Event", .obj [("type", .str "relation"),
                               ("relation", .arr (nexts.map (fun i =>
                                 .obj [("id", .str i)])))])])]

/-- The record list of the repository's own aside-mapping test: a "Chapter 5"
record flagged aside-outlink and an "Aside 1 - Notes" record flagged
chapter-heading sharing the title "Shared Title", plus a prologue record. -/
def sampleEntries : List J :=
  [sampleEntry "M1" "Shared Title" "Chapter 5" none false true [],
   sampleEntry "S1" "Shared Title" "Aside 1 - Notes" none true false [],
   sampleEntry "P1" "Prologue Start" "Prologue" none false false []]

/-- `sampleEntries` with an extra record whose chapter label ("Interlude")
matches none of the naming conventions. -/
def interludeEntries : List J :=
  sampleEntries ++ [sampleEntry "I1" "Lost" "Interlude" none false false []]

/-- Entries sharing the id "A": input for the last-wins witness. -/
def dupIdEntries : List J :=
  [sampleEntry "A" "first" "Chapter 1" none false false [],
   sampleEntry "A" "second" "Chapter 1" none false false ["B"],
   sampleEntry "B" "other" "Chapter 1" none false false []]

/-- A property bag whose "Link" property is a url holding `null` (a Notion
url property with no value is serialized as `"url": null`). -/
def nullUrlProps : J :=
  .obj [("Link", .obj [("type", .str "url"), ("url", .null)])]

/-- A property bag with an unrecognized type discriminator and one with no
discriminator at all. -/
def oddProps : J :=
  .obj [("Status", .obj [("type", .str "status"), ("status", .str "Done")]),
        ("Bare", .obj [("note", .str "no type key")])]

/-- A two-page client whose second page request raises: page one returns one
result and `has_more`, the follow-up query fails. -/
def failingClient : NotionClient := fun _ cursor =>
  match cursor with
  | none => .ok (.obj [("results", .arr [.str "r1"]),
                       ("has_more", .bool true),
                       ("next_cursor", .str "c2")])
  | some _ => .error ()

/-- Initial process state for the refresh scenario: empty external database,
no snapshot, empty memo table. -/
def c2w0 : World :=
  { source_entries := [], disk := .absent, memo := [], fetch_count := 0, now := "t0" }

/-- First forced call `build_timeline_model(db, force_refresh=True)`. -/
def c2call1 : Except Unit TimelineModel × World :=
  build_timeline_model "db" true c2w0

/-- The external database then changes: a new record appears. -/
def c2w1 : World :=
  { c2call1.2 with source_entries := [sampleEntry "N1" "New" "Prologue" none false false []] }

/-- Second forced call after the external change. -/
def c2call2 : Except Unit TimelineModel × World :=
  build_timeline_model "db" true c2w1

mutual

theorem J.beq_iff_eq : ∀ (a b : J), (J.beq a b = true) ↔ a = b
  | .null, .null => by simp [J.beq]
  | .bool a, .bool b => by simp [J.beq]
  | .num a, .num b => by simp [J.beq]
  | .str a, .str b => by simp [J.beq]
  | .arr xs, .arr ys => by
    simp only [J.beq, J.arr.injEq]
    exact J.beqList_iff_eq xs ys
  | .obj xs, .obj ys => by
    simp only [J.beq, J.obj.injEq]
    exact J.beqObj_iff_eq xs ys
  | .null, .bool _ => by simp [J.beq]
  | .null, .num _ => by simp [J.beq]
  | .null, .str _ => by simp [J.beq]
  | .null, .arr _ => by simp [J.beq]
  | .null, .obj _ => by simp [J.beq]
  | .bool _, .null => by simp [J.beq]
  | .bool _, .num _ => by simp [J.beq]
  | .bool _, .str _ => by simp [J.beq]
  | .bool _, .arr _ => by simp [J.beq]
  | .bool _, .obj _ => by simp [J.beq]
  | .num _, .null => by simp [J.beq]
  | .num _, .bool _ => by simp [J.beq]
  | .num _, .str _ => by simp [J.beq]
  | .num _, .arr _ => by simp [J.beq]
  | .num _, .obj _ => by simp [J.beq]
  | .str _, .null => by simp [J.beq]
  | .str _, .bool _ => by simp [J.beq]
  | .str _, .num _ => by simp [J.beq]
  | .str _, .arr _ => by simp [J.beq]
  | .str _, .obj _ => by simp [J.beq]
  | .arr _, .null => by simp [J.beq]
  | .arr _, .bool _ => by simp [J.beq]
  | .arr _, .num _ => by simp [J.beq]
  | .arr _, .str _ => by simp [J.beq]
  | .arr _, .obj _ => by simp [J.beq]
  | .obj _, .null => by simp [J.beq]
  | .obj _, .bool _ => by simp [J.beq]
  | .obj _, .num _ => by simp [J.beq]
  | .obj _, .str _ => by simp [J.beq]
  | .obj _, .arr _ => by simp [J.beq]

theorem J.beqList_iff_eq : ∀ (xs ys : List J), (J.beqList xs ys = true) ↔ xs = ys
  | [], [] => by simp [J.beqList]
  | x :: xs, y :: ys => by
    simp only [J.beqList, Bool.and_eq_true, List.cons.injEq]
    exact and_congr (J.beq_iff_eq x y) (J.beqList_iff_eq xs ys)
  | [], _ :: _ => by simp [J.beqList]
  | _ :: _, [] => by simp [J.beqList]

theorem J.beqObj_iff_eq : ∀ (xs ys : List (String × J)),
    (J.beqObj xs ys = true) ↔ xs = ys
  | [], [] => by simp [J.beqObj]
  | (k, v) :: xs, (k', v') :: ys => by
    simp only [J.beqObj, Bool.and_eq_true, List.cons.injEq, Prod.mk.injEq]
    constructor
    · rintro ⟨⟨h1, h2⟩, h3⟩
      exact ⟨⟨by simpa using h1, (J.beq_iff_eq v v').mp h2⟩,
        (J.beqObj_iff_eq xs ys).mp h3⟩
    · rintro ⟨⟨h1, h2⟩, h3⟩
      exact ⟨⟨by simpa using h1, (J.beq_iff_eq v v').mpr h2⟩,
        (J.beqObj_iff_eq xs ys).mpr h3⟩
  | [], _ :: _ => by simp [J.beqObj]
  | _ :: _, [] => by simp [J.beqObj]

end

theorem J.beq_self (a : J) : J.beq a a = true :=
  (J.beq_iff_eq a a).mpr rfl

theorem exceptBind_ok {α β : Type} (a : α) (f : α → Except Unit β) :
    ((Except.ok a : Except Unit α) >>= f) = f a := rfl

theorem exceptBind_err {α β : Type} (f : α → Except Unit β) :
    ((Except.error () : Except Unit α) >>= f) = .error () := rfl

theorem exceptPure {α : Type} (a : α) : (pure a : Except Unit α) = .ok a := rfl

/-- C5: for every property bag (a dict of property objects) and property
name, whenever the named property is missing, or its embedded type
discriminator is absent or none of the six recognized types,
`extract_property_value` returns the empty string without raising. -/
theorem C5_extract_fallback_empty (bag : List (String × J)) (name : String)
    (h : alookup bag name = none ∨
         ∃ kvs, alookup bag name = some (.obj kvs) ∧
           (alookup kvs "type" = none ∨
            ∃ ty, alookup kvs "type" = some ty ∧
              ty.eqStr "title" = false ∧ ty.eqStr "rich_text" = false ∧
              ty.eqStr "url" = false ∧ ty.eqStr "checkbox" = false ∧
              ty.eqStr "select" = false ∧ ty.eqStr "relation" = false)) :
    extract_property_value (.obj bag) name = .ok (.str "") := by
  rcases h with h | ⟨kvs, hname, h⟩
  · simp [extract_property_value, pyGet, h, J.eqStr, exceptBind_ok, exceptPure,
      alookup]
  · rcases h with h | ⟨ty, hty, h1, h2, h3, h4, h5, h6⟩
    · simp [extract_property_value, pyGet, hname, h, J.eqStr, exceptBind_ok,
        exceptPure]
    · simp [extract_property_value, pyGet, hname, hty, h1, h2, h3, h4, h5, h6,
        exceptBind_ok, exceptPure]

/-- C5 witness: an unrecognized discriminator ("status") and a missing
property both yield the empty string on a concrete bag. -/
theorem C5_extract_fallback_empty_witness :
    extract_property_value oddProps "Status" = .ok (.str "") ∧
    extract_property_value oddProps "Missing" = .ok (.str "") :=
  ⟨C5_extract_fallback_empty
      [("Status", .obj [("type", .str "status"), ("status", .str "Done")]),
       ("Bare", .obj [("note", .str "no type key")])] "Status"
      (.inr ⟨[("type", .str "status"), ("status", .str "Done")], rfl,
        .inr ⟨.str "status", rfl, rfl, rfl, rfl, rfl, rfl, rfl⟩⟩),
   C5_extract_fallback_empty
      [("Status", .obj [("type", .str "status"), ("status", .str "Done")]),
       ("Bare", .obj [("note", .str "no type key")])] "Missing"
      (.inl rfl)⟩

/-- C6 counterexample: a url property whose "url" key holds `null` makes
`extract_property_value` return `null` — not the empty string and not a
string at all — refuting "returns the empty string … when the url key is
present but holds a null value; the result is always a string". -/
theorem C6_url_null_counterexample :
    extract_property_value nullUrlProps "Link" = .ok J.null ∧ J.null ≠ J.str "" :=
  ⟨rfl, fun h => J.noConfusion h⟩

/-- C6 (amended): for a property whose discriminator is "url",
`extract_property_value` returns the empty string when the "url" key is
absent, and the stored value itself — whatever it is, including `null` —
when the key is present; so the result is a string only when the stored
value is one (or the key is absent). -/
theorem C6_url_amended (bag kvs : List (String × J)) (name : String)
    (hname : alookup bag name = some (.obj kvs))
    (hty : alookup kvs "type" = some (.str "url")) :
    (alookup kvs "url" = none → extract_property_value (.obj bag) name = .ok (.str "")) ∧
    (∀ v, alookup kvs "url" = some v → extract_property_value (.obj bag) name = .ok v) := by
  constructor
  · intro hurl
    simp [extract_property_value, pyGet, hname, hty, hurl, J.eqStr, exceptBind_ok]
  · intro v hurl
    simp [extract_property_value, pyGet, hname, hty, hurl, J.eqStr, exceptBind_ok]

/-- C6 witness: the amended behaviour at concrete bags — the stored `null`
comes back as `null`, a stored string comes back as itself, and an absent
url key yields the empty string. -/
theorem C6_url_amended_witness :
    extract_property_value nullUrlProps "Link" = .ok J.null ∧
    extract_property_value (.obj [("L", .obj [("type", .str "url"),
      ("url", .str "https://x")])]) "L" = .ok (.str "https://x") ∧
    extract_property_value (.obj [("L", .obj [("type", .str "url")])]) "L" =
      .ok (.str "") :=
  ⟨(C6_url_amended [("Link", .obj [("type", .str "url"), ("url", .null)])]
      [("type", .str "url"), ("url", .null)] "Link" rfl rfl).2 .null rfl,
   (C6_url_amended [("L", .obj [("type", .str "url"), ("url", .str "https://x")])]
      [("type", .str "url"), ("url", .str "https://x")] "L" rfl rfl).2
      (.str "https://x") rfl,
   (C6_url_amended [("L", .obj [("type", .str "url")])]
      [("type", .str "url")] "L" rfl rfl).1 rfl⟩

/-- C3: saving a snapshot for a source id and loading with the same id
returns exactly the saved records; loading with any other id returns
absent. -/
theorem C3_snapshot_roundtrip (db db' : String) (entries : List J) (ts : String)
    (hne : db' ≠ db) :
    load_snapshot_from_disk db (.content (save_snapshot_to_disk db entries ts)) =
      some entries ∧
    load_snapshot_from_disk db' (.content (save_snapshot_to_disk db entries ts)) =
      none := by
  constructor
  · simp [load_snapshot_from_disk, save_snapshot_to_disk, alookup, J.beq]
  · simp [load_snapshot_from_disk, save_snapshot_to_disk, alookup, J.beq,
      Ne.symm hne]

/-- C3 witness: the round trip at "db-1" versus "db-2" on a concrete record
list. -/
theorem C3_snapshot_roundtrip_witness :
    load_snapshot_from_disk "db-1"
        (.content (save_snapshot_to_disk "db-1" sampleEntries "t0")) =
      some sampleEntries ∧
    load_snapshot_from_disk "db-2"
        (.content (save_snapshot_to_disk "db-1" sampleEntries "t0")) = none :=
  ⟨(C3_snapshot_roundtrip "db-1" "db-2" sampleEntries "t0" (by decide)).1,
   (C3_snapshot_roundtrip "db-1" "db-2" sampleEntries "t0" (by decide)).2⟩

/-- C7: when the pagination loop aborts with an exception — any page request
failing included — `get_all_database_entries` returns the empty list, and a
non-empty result is only ever the complete successful traversal (never a
partial one). -/
theorem C7_fetch_error_empty (client : NotionClient) (db : String) (fuel : Nat) :
    (fetch_pages client db fuel none [] = some (.error ()) →
      get_all_database_entries client db fuel = some []) ∧
    (∀ l, get_all_database_entries client db fuel = some l →
      l = [] ∨ fetch_pages client db fuel none [] = some (.ok l)) := by
  constructor
  · intro h
    simp [get_all_database_entries, h]
  · intro l h
    unfold get_all_database_entries at h
    match hf : fetch_pages client db fuel none [] with
    | none =>
      rw [hf] at h
      exact absurd h (by simp)
    | some (.ok l') =>
      rw [hf] at h
      simp at h
      right
      rw [h]
    | some (.error e) =>
      rw [hf] at h
      simp at h
      left
      exact h

/-- C7 witness: a client whose first page succeeds (one record, has_more)
and whose second page request raises; the fetch returns the empty list, not
the one-record partial set. -/
theorem C7_fetch_error_empty_witness :
    fetch_pages failingClient "db" 2 none [] = some (.error ()) ∧
    get_all_database_entries failingClient "db" 2 = some [] :=
  ⟨rfl, (C7_fetch_error_empty failingClient "db" 2).1 rfl⟩

/-- C2 (code bug in the claimed behaviour): `build_timeline_model` is
memoized by `st.cache_data(ttl=None)` keyed on `(database_id,
force_refresh)` and never invalidates anything.  After one forced refresh,
a second call with `force_refresh = true` for the same source id is
answered from the memo: it performs no external fetch and returns the model
built from the old records even though the external database has since
changed — against the claimed (and specified) "always performs a fresh
external fetch and is never answered from a previously built model". -/
theorem C2_forced_refresh_served_from_memo :
    c2call1.2.fetch_count = 1 ∧
    c2call2.1 = c2call1.1 ∧
    c2call2.2.fetch_count = c2w1.fetch_count ∧
    c2call2.1 ≠ .ok (modelOf c2w1.source_entries) := by
  refine ⟨rfl, rfl, rfl, ?_⟩
  intro h
  have h0 := congrArg (fun r : Except Unit TimelineModel =>
    match r with | .ok m => m.entry_count | .error _ => 0) h
  exact Nat.zero_ne_one (show (0 : Nat) = 1 from h0)

theorem exceptBind_eq_ok {α β : Type} {e : Except Unit α} {f : α → Except Unit β}
    {b : β} : (e >>= f) = .ok b ↔ ∃ a, e = .ok a ∧ f a = .ok b := by
  cases e with
  | ok a => simp [exceptBind_ok]
  | error u => cases u; simp [exceptBind_err]

theorem exceptPure_eq_ok {α : Type} {a b : α} :
    (pure a : Except Unit α) = .ok b ↔ a = b := by
  simp [exceptPure]

theorem idMatches_true_iff (e id : J) :
    idMatches e id = true ↔ pyGet e "id" (.str "") = .ok id := by
  unfold idMatches
  cases hp : pyGet e "id" (.str "") with
  | ok v => simp [J.beq_iff_eq]
  | error u => simp

theorem parseEntry_id {e : J} {nid : J} {node : EventNode}
    (h : parseEntry e = .ok (nid, node)) : pyGet e "id" (.str "") = .ok nid := by
  unfold parseEntry at h
  rw [exceptBind_eq_ok] at h
  obtain ⟨a1, h1, h⟩ := h
  rw [exceptBind_eq_ok] at h
  obtain ⟨a2, h2, h⟩ := h
  rw [exceptBind_eq_ok] at h
  obtain ⟨a3, h3, h⟩ := h
  rw [exceptBind_eq_ok] at h
  obtain ⟨a4, h4, h⟩ := h
  rw [exceptBind_eq_ok] at h
  obtain ⟨a5, h5, h⟩ := h
  rw [exceptBind_eq_ok] at h
  obtain ⟨a6, h6, h⟩ := h
  rw [exceptBind_eq_ok] at h
  obtain ⟨a7, h7, h⟩ := h
  rw [exceptPure_eq_ok] at h
  have hfst : a1 = nid := congrArg Prod.fst h
  rw [← hfst]
  exact h1

theorem J.beq_eq_false_of_ne {a b : J} (h : a ≠ b) : J.beq a b = false := by
  simpa using (not_iff_not.mpr (J.beq_iff_eq a b)).mpr h

theorem jlookup_dictInsert_self (m : List (J × EventNode)) (k : J) (v : EventNode) :
    jlookup (dictInsertNode m k v) k = some v := by
  induction m with
  | nil => simp [dictInsertNode, jlookup, J.beq_self]
  | cons p rest ih =>
    obtain ⟨k0, v0⟩ := p
    rcases Classical.em (k0 = k) with h0 | h0
    · subst h0
      simp [dictInsertNode, jlookup, J.beq_self]
    · simp [dictInsertNode, jlookup, J.beq_eq_false_of_ne h0, ih]

theorem jlookup_dictInsert_ne (m : List (J × EventNode)) (k : J) (v : EventNode)
    (q : J) (hq : q ≠ k) :
    jlookup (dictInsertNode m k v) q = jlookup m q := by
  induction m with
  | nil => simp [dictInsertNode, jlookup, J.beq_eq_false_of_ne (Ne.symm hq)]
  | cons p rest ih =>
    obtain ⟨k0, v0⟩ := p
    rcases Classical.em (k0 = k) with h0 | h0
    · subst h0
      simp [dictInsertNode, jlookup, J.beq_self, J.beq_eq_false_of_ne (Ne.symm hq)]
    · rcases Classical.em (k0 = q) with hq0 | hq0
      · subst hq0
        simp [dictInsertNode, jlookup, J.beq_eq_false_of_ne h0, J.beq_self]
      · simp [dictInsertNode, jlookup, J.beq_eq_false_of_ne h0,
          J.beq_eq_false_of_ne hq0, ih]

theorem lastEntryWithId_mem {l : List J} {id e : J}
    (h : lastEntryWithId l id = some e) : e ∈ l ∧ idMatches e id = true := by
  induction l with
  | nil => simp [lastEntryWithId] at h
  | cons e0 rest ih =>
    unfold lastEntryWithId at h
    cases hr : lastEntryWithId rest id with
    | some x =>
      rw [hr] at h
      obtain ⟨h1, h2⟩ := ih (hr.trans (by simpa using h))
      exact ⟨List.mem_cons_of_mem _ h1, h2⟩
    | none =>
      rw [hr] at h
      by_cases hm : idMatches e0 id = true
      · rw [if_pos hm] at h
        cases h
        exact ⟨List.mem_cons_self .., hm⟩
      · rw [if_neg hm] at h
        cases h

theorem parseEntriesGo_lookup :
    ∀ (l : List J) (acc ns : List (J × EventNode)),
      parseEntriesGo acc l = .ok ns →
      ∀ id : J,
        (lastEntryWithId l id = none → jlookup ns id = jlookup acc id) ∧
        (∀ e, lastEntryWithId l id = some e →
          ∃ nid node, parseEntry e = .ok (nid, node) ∧ nid = id ∧
            jlookup ns id = some node)
  | [], acc, ns, h, id => by
    unfold parseEntriesGo at h
    cases h
    exact ⟨fun _ => rfl, fun e he => by simp [lastEntryWithId] at he⟩
  | e0 :: rest, acc, ns, h, id => by
    unfold parseEntriesGo at h
    cases hpe : parseEntry e0 with
    | error u =>
      cases u
      rw [hpe, exceptBind_err] at h
      cases h
    | ok p =>
      obtain ⟨nid, node⟩ := p
      rw [hpe, exceptBind_ok] at h
      have IH := parseEntriesGo_lookup rest (dictInsertNode acc nid node) ns h id
      constructor
      · intro hn
        unfold lastEntryWithId at hn
        cases hr : lastEntryWithId rest id with
        | some x => rw [hr] at hn; cases hn
        | none =>
          rw [hr] at hn
          by_cases hm : idMatches e0 id = true
          · rw [if_pos hm] at hn; cases hn
          · have hid : pyGet e0 "id" (.str "") = .ok nid := parseEntry_id hpe
            have hne : nid ≠ id := by
              intro hcontra
              exact hm ((idMatches_true_iff e0 id).mpr (hcontra ▸ hid))
            rw [IH.1 hr, jlookup_dictInsert_ne _ _ _ _ (Ne.symm hne)]
      · intro e he
        unfold lastEntryWithId at he
        cases hr : lastEntryWithId rest id with
        | some x =>
          rw [hr] at he
          exact IH.2 e (hr.trans (by simpa using he))
        | none =>
          rw [hr] at he
          by_cases hm : idMatches e0 id = true
          · rw [if_pos hm] at he
            cases he
            have hid : pyGet e0 "id" (.str "") = .ok nid := parseEntry_id hpe
            have hnid : nid = id := by
              have := (idMatches_true_iff e0 id).mp hm
              exact Except.ok.inj (hid.symm.trans this)
            refine ⟨nid, node, hpe, hnid, ?_⟩
            rw [IH.1 hr, ← hnid, jlookup_dictInsert_self]
          · rw [if_neg hm] at he
            cases he

theorem mem_map_fst_dictInsert (m : List (J × EventNode)) (k : J) (v : EventNode)
    (q : J) :
    q ∈ (dictInsertNode m k v).map Prod.fst ↔ q ∈ m.map Prod.fst ∨ q = k := by
  induction m with
  | nil => simp [dictInsertNode]
  | cons p rest ih =>
    obtain ⟨k0, v0⟩ := p
    rcases Classical.em (k0 = k) with h0 | h0
    · subst h0
      simp only [dictInsertNode, J.beq_self, if_pos]
      simp only [List.map_cons, List.mem_cons]
      constructor
      · rintro (h | h)
        · exact .inl (.inl h)
        · exact .inl (.inr h)
      · rintro ((h | h) | h)
        · exact .inl h
        · exact .inr h
        · exact .inl (h ▸ rfl)
    · simp only [dictInsertNode, J.beq_eq_false_of_ne h0, Bool.false_eq_true,
        if_false, List.map_cons, List.mem_cons, ih]
      tauto

theorem nodup_map_fst_dictInsert (m : List (J × EventNode)) (k : J)
    (v : EventNode) (h : (m.map Prod.fst).Nodup) :
    ((dictInsertNode m k v).map Prod.fst).Nodup := by
  induction m with
  | nil => simp [dictInsertNode]
  | cons p rest ih =>
    obtain ⟨k0, v0⟩ := p
    simp only [List.map_cons, List.nodup_cons] at h
    rcases Classical.em (k0 = k) with h0 | h0
    · subst h0
      simp only [dictInsertNode, J.beq_self, if_pos, List.map_cons,
        List.nodup_cons]
      exact h
    · simp only [dictInsertNode, J.beq_eq_false_of_ne h0, Bool.false_eq_true,
        if_false, List.map_cons, List.nodup_cons, mem_map_fst_dictInsert]
      exact ⟨by tauto, ih h.2⟩

theorem parseEntriesGo_nodup :
    ∀ (l : List J) (acc ns : List (J × EventNode)),
      parseEntriesGo acc l = .ok ns → (acc.map Prod.fst).Nodup →
      (ns.map Prod.fst).Nodup
  | [], acc, ns, h, hn => by
    unfold parseEntriesGo at h
    cases h
    exact hn
  | e0 :: rest, acc, ns, h, hn => by
    unfold parseEntriesGo at h
    cases hpe : parseEntry e0 with
    | error u =>
      cases u
      rw [hpe, exceptBind_err] at h
      cases h
    | ok p =>
      obtain ⟨nid, node⟩ := p
      rw [hpe, exceptBind_ok] at h
      exact parseEntriesGo_nodup rest _ ns h (nodup_map_fst_dictInsert _ _ _ hn)

theorem parseEntriesGo_keys :
    ∀ (l : List J) (acc ns : List (J × EventNode)),
      parseEntriesGo acc l = .ok ns →
      ∀ id : J, id ∈ ns.map Prod.fst ↔
        (id ∈ acc.map Prod.fst ∨ ∃ e ∈ l, pyGet e "id" (.str "") = .ok id)
  | [], acc, ns, h, id => by
    unfold parseEntriesGo at h
    cases h
    simp
  | e0 :: rest, acc, ns, h, id => by
    unfold parseEntriesGo at h
    cases hpe : parseEntry e0 with
    | error u =>
      cases u
      rw [hpe, exceptBind_err] at h
      cases h
    | ok p =>
      obtain ⟨nid, node⟩ := p
      rw [hpe, exceptBind_ok] at h
      have IH := parseEntriesGo_keys rest _ ns h id
      rw [IH, mem_map_fst_dictInsert]
      have hid : pyGet e0 "id" (.str "") = .ok nid := parseEntry_id hpe
      constructor
      · rintro ((h' | h') | h')
        · exact .inl h'
        · exact .inr ⟨e0, List.mem_cons_self .., h' ▸ hid⟩
        · exact .inr (let ⟨e, he, hh⟩ := h'; ⟨e, List.mem_cons_of_mem _ he, hh⟩)
      · rintro (h' | ⟨e, he, hh⟩)
        · exact .inl (.inl h')
        · rcases List.mem_cons.mp he with rfl | he'
          · exact .inl (.inr (Except.ok.inj (hid.symm.trans hh)).symm)
          · exact .inr ⟨e, he', hh⟩

/-- C10: `parse_entries_to_nodes` returns a map with exactly one node per
distinct resolved record id (entries without an "id" key resolve to — and
collapse onto — the empty-string key): the key set is duplicate-free and is
exactly the resolved ids of the input, and the node stored under an id is
the one parsed from the **last** entry of the input with that id. -/
theorem C10_parse_last_wins (entries : List J) (ns : List (J × EventNode))
    (h : parse_entries_to_nodes entries = .ok ns) :
    (ns.map Prod.fst).Nodup ∧
    (∀ id : J, id ∈ ns.map Prod.fst ↔
      ∃ e ∈ entries, pyGet e "id" (.str "") = .ok id) ∧
    (∀ id : J,
      (lastEntryWithId entries id = none → jlookup ns id = none) ∧
      (∀ e, lastEntryWithId entries id = some e →
        ∃ nid node, parseEntry e = .ok (nid, node) ∧ nid = id ∧
          jlookup ns id = some node)) := by
  refine ⟨parseEntriesGo_nodup entries [] ns h (by simp),
    fun id => by simpa using parseEntriesGo_keys entries [] ns h id,
    fun id => ⟨fun hn => ?_, (parseEntriesGo_lookup entries [] ns h id).2⟩⟩
  rw [(parseEntriesGo_lookup entries [] ns h id).1 hn]
  rfl

/-- C10 witness: three concrete entries, two sharing id "A"; the key set is
exactly {"A", "B"} and the node under "A" is parsed from the second (last)
"A"-entry. -/
theorem C10_parse_last_wins_witness :
    parse_entries_to_nodes dupIdEntries = .ok (nodesOf dupIdEntries) ∧
    ((nodesOf dupIdEntries).map Prod.fst).Nodup ∧
    (∃ nid node,
      parseEntry (sampleEntry "A" "second" "Chapter 1" none false false ["B"]) =
        .ok (nid, node) ∧ nid = .str "A" ∧
      jlookup (nodesOf dupIdEntries) (.str "A") = some node) :=
  ⟨rfl,
   (C10_parse_last_wins dupIdEntries (nodesOf dupIdEntries) rfl).1,
   (C10_parse_last_wins dupIdEntries (nodesOf dupIdEntries) rfl).2.2
     (.str "A") |>.2 _ rfl⟩

theorem alookupS_eq_none_iff {α : Type} (kvs : List (String × α)) (k : String) :
    alookupS kvs k = none ↔ k ∉ kvs.map Prod.fst := by
  induction kvs with
  | nil => simp [alookupS]
  | cons p rest ih =>
    obtain ⟨k0, v0⟩ := p
    by_cases h0 : k0 = k
    · subst h0; simp [alookupS]
    · simp [alookupS, h0, ih, Ne.symm h0]

theorem alookupS_isSome_iff_mem {α : Type} (kvs : List (String × α)) (k : String) :
    (∃ v, alookupS kvs k = some v) ↔ k ∈ kvs.map Prod.fst := by
  rcases hv : alookupS kvs k with _ | v
  · rw [alookupS_eq_none_iff] at hv
    simp [hv]
  · have : k ∈ kvs.map Prod.fst := by
      by_contra hk
      rw [← alookupS_eq_none_iff kvs k] at hk
      rw [hv] at hk
      cases hk
    simp [this]

theorem jalookup_groupAppend_self (m : List (J × List J)) (k : J) (e : J) :
    jalookup (groupAppend m k e) k = some ((jalookup m k).getD [] ++ [e]) := by
  induction m with
  | nil => simp [groupAppend, jalookup, J.beq_self]
  | cons p rest ih =>
    obtain ⟨k0, es0⟩ := p
    rcases Classical.em (k0 = k) with h0 | h0
    · subst h0
      simp [groupAppend, jalookup, J.beq_self]
    · simp [groupAppend, jalookup, J.beq_eq_false_of_ne h0, ih]

theorem jalookup_groupAppend_ne (m : List (J × List J)) (k : J) (e : J)
    (q : J) (hq : q ≠ k) :
    jalookup (groupAppend m k e) q = jalookup m q := by
  induction m with
  | nil => simp [groupAppend, jalookup, J.beq_eq_false_of_ne (Ne.symm hq)]
  | cons p rest ih =>
    obtain ⟨k0, es0⟩ := p
    rcases Classical.em (k0 = k) with h0 | h0
    · subst h0
      simp [groupAppend, jalookup, J.beq_self, J.beq_eq_false_of_ne (Ne.symm hq)]
    · rcases Classical.em (k0 = q) with hq0 | hq0
      · subst hq0
        simp [groupAppend, jalookup, J.beq_eq_false_of_ne h0, J.beq_self]
      · simp [groupAppend, jalookup, J.beq_eq_false_of_ne h0,
          J.beq_eq_false_of_ne hq0, ih]

theorem mem_map_fst_groupAppend (m : List (J × List J)) (k : J) (e : J) (q : J) :
    q ∈ (groupAppend m k e).map Prod.fst ↔ q ∈ m.map Prod.fst ∨ q = k := by
  induction m with
  | nil => simp [groupAppend]
  | cons p rest ih =>
    obtain ⟨k0, es0⟩ := p
    rcases Classical.em (k0 = k) with h0 | h0
    · subst h0
      simp only [groupAppend, J.beq_self, if_pos, List.map_cons, List.mem_cons]
      tauto
    · simp only [groupAppend, J.beq_eq_false_of_ne h0, Bool.false_eq_true,
        if_false, List.map_cons, List.mem_cons, ih]
      tauto

theorem nodup_map_fst_groupAppend (m : List (J × List J)) (k : J) (e : J)
    (h : (m.map Prod.fst).Nodup) :
    ((groupAppend m k e).map Prod.fst).Nodup := by
  induction m with
  | nil => simp [groupAppend]
  | cons p rest ih =>
    obtain ⟨k0, es0⟩ := p
    simp only [List.map_cons, List.nodup_cons] at h
    rcases Classical.em (k0 = k) with h0 | h0
    · subst h0
      simpa [groupAppend, J.beq_self] using h
    · simp only [groupAppend, J.beq_eq_false_of_ne h0, Bool.false_eq_true,
        if_false, List.map_cons, List.nodup_cons, mem_map_fst_groupAppend]
      exact ⟨by tauto, ih h.2⟩

theorem charListLe_total : ∀ xs ys : List Char,
    charListLe xs ys = true ∨ charListLe ys xs = true
  | [], ys => by simp [charListLe]
  | x :: xs, [] => by simp [charListLe]
  | x :: xs, y :: ys => by
    rcases Nat.lt_trichotomy x.toNat y.toNat with h | h | h
    · left; simp [charListLe, h]
    · rcases charListLe_total xs ys with hr | hr
      · left; simp [charListLe, h, Nat.lt_irrefl, hr]
      · right; simp [charListLe, h.symm, Nat.lt_irrefl, hr]
    · right; simp [charListLe, h]

theorem charListLe_trans : ∀ xs ys zs : List Char,
    charListLe xs ys = true → charListLe ys zs = true → charListLe xs zs = true
  | [], _, _, _, _ => by simp [charListLe]
  | x :: xs, [], zs, h, _ => by simp [charListLe] at h
  | x :: xs, y :: ys, [], _, h => by simp [charListLe] at h
  | x :: xs, y :: ys, z :: zs, h1, h2 => by
    simp only [charListLe] at h1 h2 ⊢
    rcases Nat.lt_trichotomy x.toNat y.toNat with hxy | hxy | hxy
    · rcases Nat.lt_trichotomy y.toNat z.toNat with hyz | hyz | hyz
      · simp [Nat.lt_trans hxy hyz]
      · simp [hyz ▸ hxy]
      · rw [if_neg (by omega), if_pos hyz] at h2; cases h2
    · rcases Nat.lt_trichotomy y.toNat z.toNat with hyz | hyz | hyz
      · simp [hxy ▸ hyz]
      · rw [if_neg (by omega), if_neg (by omega)] at h1 h2
        rw [if_neg (by omega), if_neg (by omega)]
        exact charListLe_trans xs ys zs h1 h2
      · rw [if_neg (by omega), if_pos hyz] at h2; cases h2
    · rw [if_neg (by omega), if_pos hxy] at h1; cases h1

theorem charListLe_antisymm : ∀ xs ys : List Char,
    charListLe xs ys = true → charListLe ys xs = true → xs = ys
  | [], [], _, _ => rfl
  | [], y :: ys, _, h => by simp [charListLe] at h
  | x :: xs, [], h, _ => by simp [charListLe] at h
  | x :: xs, y :: ys, h1, h2 => by
    simp only [charListLe] at h1 h2
    rcases Nat.lt_trichotomy x.toNat y.toNat with hxy | hxy | hxy
    · rw [if_neg (by omega), if_pos hxy] at h2; cases h2
    · rw [if_neg (by omega), if_neg (by omega)] at h1 h2
      have hx : x = y := Char.eq_of_val_eq (UInt32.ext hxy)
      rw [hx, charListLe_antisymm xs ys h1 h2]
    · rw [if_neg (by omega), if_pos hxy] at h1; cases h1

theorem strLe_total (a b : String) : strLe a b = true ∨ strLe b a = true :=
  charListLe_total a.data b.data

theorem strLe_trans {a b c : String} (h1 : strLe a b = true)
    (h2 : strLe b c = true) : strLe a c = true :=
  charListLe_trans a.data b.data c.data h1 h2

theorem strLe_antisymm {a b : String} (h1 : strLe a b = true)
    (h2 : strLe b a = true) : a = b :=
  String.ext (charListLe_antisymm a.data b.data h1 h2)

theorem insortStr_perm (x : String) (l : List String) :
    (insortStr x l).Perm (x :: l) := by
  induction l with
  | nil => simp [insortStr]
  | cons y ys ih =>
    unfold insortStr
    by_cases h : strLe x y = true
    · rw [if_pos h]
    · rw [if_neg h]
      exact (List.Perm.cons y ih).trans (List.Perm.swap x y ys)

theorem sortStr_perm (l : List String) : (sortStr l).Perm l := by
  induction l with
  | nil => simp [sortStr]
  | cons x xs ih =>
    exact (insortStr_perm x (sortStr xs)).trans (List.Perm.cons x ih)

theorem mem_sortStr (a : String) (l : List String) : a ∈ sortStr l ↔ a ∈ l :=
  (sortStr_perm l).mem_iff

theorem nodup_sortStr (l : List String) (h : l.Nodup) : (sortStr l).Nodup :=
  ((sortStr_perm l).nodup_iff).mpr h

theorem pairwise_insortStr (x : String) (l : List String)
    (h : List.Pairwise (fun a b => strLe a b = true) l) :
    List.Pairwise (fun a b => strLe a b = true) (insortStr x l) := by
  induction l with
  | nil => simp [insortStr]
  | cons y ys ih =>
    unfold insortStr
    by_cases hxy : strLe x y = true
    · rw [if_pos hxy]
      refine List.Pairwise.cons ?_ h
      intro b hb
      rcases List.mem_cons.mp hb with rfl | hb
      · exact hxy
      · exact strLe_trans hxy (List.rel_of_pairwise_cons h hb)
    · rw [if_neg hxy]
      have hyx : strLe y x = true := by
        rcases strLe_total x y with ht | ht
        · exact absurd ht hxy
        · exact ht
      refine List.Pairwise.cons ?_ (ih (List.Pairwise.sublist (by simp) h))
      intro b hb
      rcases List.mem_cons.mp ((insortStr_perm x ys).mem_iff.mp hb) with hb1 | hb1
      · exact hb1 ▸ hyx
      · exact List.rel_of_pairwise_cons h hb1

theorem sortStr_sorted (l : List String) :
    List.Pairwise (fun a b => strLe a b = true) (sortStr l) := by
  induction l with
  | nil => simp [sortStr]
  | cons x xs ih => exact pairwise_insortStr x (sortStr xs) ih

theorem sortStr_eq_of_perm {l l' : List String} (h : l.Perm l') :
    sortStr l = sortStr l' := by
  refine @List.eq_of_perm_of_sorted String (fun a b => strLe a b = true)
    ⟨fun a b h1 h2 => strLe_antisymm h1 h2⟩ _ _ ?_ (sortStr_sorted l) (sortStr_sorted l')
  exact (sortStr_perm l).trans (h.trans (sortStr_perm l').symm)

theorem groupEntries_mem :
    ∀ (l : List J) (acc g : List (J × List J)),
      groupEntries acc l = .ok g →
      ∀ (k e' : J),
        (∃ es, jalookup g k = some es ∧ e' ∈ es) ↔
          ((∃ es, jalookup acc k = some es ∧ e' ∈ es) ∨
           (e' ∈ l ∧ chapterOf e' = .ok k ∧ k.truthy = true))
  | [], acc, g, h, k, e' => by
    unfold groupEntries at h
    cases h
    simp
  | e0 :: rest, acc, g, h, k, e' => by
    unfold groupEntries at h
    cases hce : chapterOf e0 with
    | error u =>
      cases u
      rw [hce, exceptBind_err] at h
      cases h
    | ok ch =>
      rw [hce, exceptBind_ok] at h
      by_cases htr : ch.truthy = true
      · rw [if_pos htr] at h
        rw [groupEntries_mem rest (groupAppend acc ch e0) g h k e']
        rcases Classical.em (k = ch) with rfl | hk
        · rw [jalookup_groupAppend_self]
          constructor
          · rintro (⟨es, hes, hmem⟩ | ⟨hmem, hch, htr'⟩)
            · rw [Option.some.injEq] at hes
              subst hes
              rcases List.mem_append.mp hmem with hx | he0
              · rcases ho : jalookup acc k with _ | es0
                · rw [ho] at hx; cases hx
                · rw [ho] at hx
                  exact .inl ⟨es0, rfl, hx⟩
              · rw [List.mem_singleton] at he0
                subst he0
                exact .inr ⟨List.mem_cons_self .., hce, htr⟩
            · exact .inr ⟨List.mem_cons_of_mem _ hmem, hch, htr'⟩
          · rintro (⟨es, hes, hmem⟩ | ⟨hmem, hch, htr'⟩)
            · refine .inl ⟨_, rfl, List.mem_append.mpr (.inl ?_)⟩
              rw [hes]
              exact hmem
            · rcases List.mem_cons.mp hmem with rfl | hmem0
              · exact .inl ⟨_, rfl, List.mem_append.mpr (.inr (by simp))⟩
              · exact .inr ⟨hmem0, hch, htr'⟩
        · rw [jalookup_groupAppend_ne _ _ _ _ hk]
          constructor
          · rintro (h' | ⟨hmem, hch, htr'⟩)
            · exact .inl h'
            · exact .inr ⟨List.mem_cons_of_mem _ hmem, hch, htr'⟩
          · rintro (h' | ⟨hmem, hch, htr'⟩)
            · exact .inl h'
            · rcases List.mem_cons.mp hmem with rfl | hmem0
              · exact absurd (Except.ok.inj (hce.symm.trans hch)).symm hk
              · exact .inr ⟨hmem0, hch, htr'⟩
      · rw [if_neg htr] at h
        rw [groupEntries_mem rest acc g h k e']
        constructor
        · rintro (h' | ⟨hmem, hch, htr'⟩)
          · exact .inl h'
          · exact .inr ⟨List.mem_cons_of_mem _ hmem, hch, htr'⟩
        · rintro (h' | ⟨hmem, hch, htr'⟩)
          · exact .inl h'
          · rcases List.mem_cons.mp hmem with rfl | hmem0
            · have hck : ch = k := Except.ok.inj (hce.symm.trans hch)
              exact absurd (hck ▸ htr') htr
            · exact .inr ⟨hmem0, hch, htr'⟩

theorem groupEntries_keys :
    ∀ (l : List J) (acc g : List (J × List J)),
      groupEntries acc l = .ok g →
      ∀ k : J, k ∈ g.map Prod.fst ↔
        (k ∈ acc.map Prod.fst ∨ ∃ e ∈ l, chapterOf e = .ok k ∧ k.truthy = true)
  | [], acc, g, h, k => by
    unfold groupEntries at h
    cases h
    simp
  | e0 :: rest, acc, g, h, k => by
    unfold groupEntries at h
    cases hce : chapterOf e0 with
    | error u =>
      cases u
      rw [hce, exceptBind_err] at h
      cases h
    | ok ch =>
      rw [hce, exceptBind_ok] at h
      by_cases htr : ch.truthy = true
      · rw [if_pos htr] at h
        rw [groupEntries_keys rest _ g h k, mem_map_fst_groupAppend]
        constructor
        · rintro ((h' | rfl) | ⟨e, he, hch, htr'⟩)
          · exact .inl h'
          · exact .inr ⟨e0, List.mem_cons_self .., hce, htr⟩
          · exact .inr ⟨e, List.mem_cons_of_mem _ he, hch, htr'⟩
        · rintro (h' | ⟨e, he, hch, htr'⟩)
          · exact .inl (.inl h')
          · rcases List.mem_cons.mp he with rfl | he0
            · exact .inl (.inr (Except.ok.inj (hch.symm.trans hce)))
            · exact .inr ⟨e, he0, hch, htr'⟩
      · rw [if_neg htr] at h
        rw [groupEntries_keys rest acc g h k]
        constructor
        · rintro (h' | ⟨e, he, hch, htr'⟩)
          · exact .inl h'
          · exact .inr ⟨e, List.mem_cons_of_mem _ he, hch, htr'⟩
        · rintro (h' | ⟨e, he, hch, htr'⟩)
          · exact .inl h'
          · rcases List.mem_cons.mp he with rfl | he0
            · have hck : ch = k := Except.ok.inj (hce.symm.trans hch)
              exact absurd (hck ▸ htr') htr
            · exact .inr ⟨e, he0, hch, htr'⟩

theorem groupEntries_nodup :
    ∀ (l : List J) (acc g : List (J × List J)),
      groupEntries acc l = .ok g → (acc.map Prod.fst).Nodup →
      (g.map Prod.fst).Nodup
  | [], acc, g, h, hn => by
    unfold groupEntries at h
    cases h
    exact hn
  | e0 :: rest, acc, g, h, hn => by
    unfold groupEntries at h
    cases hce : chapterOf e0 with
    | error u =>
      cases u
      rw [hce, exceptBind_err] at h
      cases h
    | ok ch =>
      rw [hce, exceptBind_ok] at h
      by_cases htr : ch.truthy = true
      · rw [if_pos htr] at h
        exact groupEntries_nodup rest _ g h (nodup_map_fst_groupAppend _ _ _ hn)
      · rw [if_neg htr] at h
        exact groupEntries_nodup rest acc g h hn

theorem toStrKeyed_eq :
    ∀ (g : List (J × List J)) (ebc : List (String × List J)),
      toStrKeyed g = .ok ebc → g = ebc.map (fun p => (J.str p.fst, p.snd))
  | [], ebc, h => by
    unfold toStrKeyed at h
    cases h
    rfl
  | (k, es) :: rest, ebc, h => by
    cases k with
    | str s =>
      unfold toStrKeyed at h
      cases hr : toStrKeyed rest with
      | error u =>
        cases u
        rw [hr, exceptBind_err] at h
        cases h
      | ok tl =>
        rw [hr, exceptBind_ok, exceptPure_eq_ok] at h
        rw [← h]
        simpa using toStrKeyed_eq rest tl hr
    | null => simp [toStrKeyed] at h
    | bool b => simp [toStrKeyed] at h
    | num n => simp [toStrKeyed] at h
    | arr xs => simp [toStrKeyed] at h
    | obj kvs => simp [toStrKeyed] at h

theorem jalookup_strKeyed (ebc : List (String × List J)) (s : String) :
    jalookup (ebc.map (fun p => (J.str p.fst, p.snd))) (.str s) = alookupS ebc s := by
  induction ebc with
  | nil => rfl
  | cons p rest ih =>
    obtain ⟨k0, es0⟩ := p
    by_cases h0 : k0 = s
    · subst h0
      simp [jalookup, alookupS, J.beq_self]
    · have hb : J.beq (J.str k0) (J.str s) = false :=
        J.beq_eq_false_of_ne (by simpa using h0)
      simp [jalookup, alookupS, hb, h0, ih]

theorem keys_strKeyed (ebc : List (String × List J)) :
    (ebc.map (fun p => (J.str p.fst, p.snd))).map Prod.fst =
      (ebc.map Prod.fst).map J.str := by
  simp [List.map_map]

theorem nodup_strKeyed (ebc : List (String × List J))
    (h : ((ebc.map (fun p => (J.str p.fst, p.snd))).map Prod.fst).Nodup) :
    (ebc.map Prod.fst).Nodup := by
  rw [keys_strKeyed] at h
  exact h.of_map

theorem mkPySet_eq_ok {ts ts' : List J} :
    mkPySet ts = .ok ts' ↔ ts.all J.hashable = true ∧ ts' = ts := by
  unfold mkPySet
  by_cases h : ts.all J.hashable = true
  · simp [h, eq_comm]
  · simp [h]

theorem collectFlaggedTitles_mem (flag : String) :
    ∀ (es ts : List J), collectFlaggedTitles flag es = .ok ts →
      ∀ t : J, t ∈ ts ↔ ∃ e ∈ es, ∃ props v,
        pyGet e "properties" (.obj []) = .ok props ∧
        extract_property_value props flag = .ok v ∧ v.truthy = true ∧
        title_from_props props = .ok t
  | [], ts, h, t => by
    unfold collectFlaggedTitles at h
    cases h
    simp
  | e0 :: rest, ts, h, t => by
    unfold collectFlaggedTitles at h
    cases hp : pyGet e0 "properties" (.obj []) with
    | error u =>
      cases u
      rw [hp, exceptBind_err] at h
      cases h
    | ok props =>
      rw [hp, exceptBind_ok] at h
      cases hv : extract_property_value props flag with
      | error u =>
        cases u
        rw [hv, exceptBind_err] at h
        cases h
      | ok v =>
        rw [hv, exceptBind_ok] at h
        by_cases htr : v.truthy = true
        · rw [if_pos htr] at h
          cases ht : title_from_props props with
          | error u =>
            cases u
            rw [ht, exceptBind_err] at h
            cases h
          | ok t0 =>
            rw [ht, exceptBind_ok] at h
            cases htl : collectFlaggedTitles flag rest with
            | error u =>
              cases u
              rw [htl, exceptBind_err] at h
              cases h
            | ok tl =>
              rw [htl, exceptBind_ok, exceptPure_eq_ok] at h
              subst h
              rw [List.mem_cons]
              constructor
              · rintro (rfl | hmem)
                · exact ⟨e0, List.mem_cons_self .., props, v, hp, hv, htr, ht⟩
                · obtain ⟨e, he, w⟩ :=
                    (collectFlaggedTitles_mem flag rest tl htl t).mp hmem
                  exact ⟨e, List.mem_cons_of_mem _ he, w⟩
              · rintro ⟨e, he, props', v', hp', hv', htr', ht'⟩
                rcases List.mem_cons.mp he with rfl | he0
                · left
                  have : props' = props := Except.ok.inj (hp'.symm.trans hp)
                  subst this
                  exact (Except.ok.inj (ht.symm.trans ht')).symm
                · right
                  exact (collectFlaggedTitles_mem flag rest tl htl t).mpr
                    ⟨e, he0, props', v', hp', hv', htr', ht'⟩
        · rw [if_neg htr] at h
          rw [collectFlaggedTitles_mem flag rest ts h t]
          constructor
          · rintro ⟨e, he, w⟩
            exact ⟨e, List.mem_cons_of_mem _ he, w⟩
          · rintro ⟨e, he, props', v', hp', hv', htr', ht'⟩
            rcases List.mem_cons.mp he with rfl | he0
            · have hpp : props' = props := Except.ok.inj (hp'.symm.trans hp)
              subst hpp
              have hvv : v' = v := Except.ok.inj (hv'.symm.trans hv)
              subst hvv
              exact absurd htr' htr
            · exact ⟨e, he0, props', v', hp', hv', htr', ht'⟩

theorem buildHeadings_keys :
    ∀ (asides : List String) (ebc : List (String × List J)) heads,
      buildHeadings ebc asides = .ok heads → heads.map Prod.fst = asides
  | [], ebc, heads, h => by
    unfold buildHeadings at h
    cases h
    rfl
  | a :: rest, ebc, heads, h => by
    unfold buildHeadings at h
    cases hc : collectFlaggedTitles "Chapter Heading" ((alookupS ebc a).getD []) with
    | error u =>
      cases u
      rw [hc, exceptBind_err] at h
      cases h
    | ok titles =>
      rw [hc, exceptBind_ok] at h
      cases hs : mkPySet titles with
      | error u =>
        cases u
        rw [hs, exceptBind_err] at h
        cases h
      | ok tset =>
        rw [hs, exceptBind_ok] at h
        cases htl : buildHeadings ebc rest with
        | error u =>
          cases u
          rw [htl, exceptBind_err] at h
          cases h
        | ok tl =>
          rw [htl, exceptBind_ok, exceptPure_eq_ok] at h
          subst h
          simpa using buildHeadings_keys rest ebc tl htl

theorem buildHeadings_lookup :
    ∀ (asides : List String) (ebc : List (String × List J)) heads,
      buildHeadings ebc asides = .ok heads →
      ∀ (A : String) (ts : List J),
        alookupS heads A = some ts ↔
          (A ∈ asides ∧ ∃ titles,
            collectFlaggedTitles "Chapter Heading" ((alookupS ebc A).getD []) =
              .ok titles ∧ mkPySet titles = .ok ts)
  | [], ebc, heads, h, A, ts => by
    unfold buildHeadings at h
    cases h
    simp [alookupS]
  | a :: rest, ebc, heads, h, A, ts => by
    unfold buildHeadings at h
    cases hc : collectFlaggedTitles "Chapter Heading" ((alookupS ebc a).getD []) with
    | error u =>
      cases u
      rw [hc, exceptBind_err] at h
      cases h
    | ok titles =>
      rw [hc, exceptBind_ok] at h
      cases hs : mkPySet titles with
      | error u =>
        cases u
        rw [hs, exceptBind_err] at h
        cases h
      | ok tset =>
        rw [hs, exceptBind_ok] at h
        cases htl : buildHeadings ebc rest with
        | error u =>
          cases u
          rw [htl, exceptBind_err] at h
          cases h
        | ok tl =>
          rw [htl, exceptBind_ok, exceptPure_eq_ok] at h
          subst h
          by_cases hA : a = A
          · subst hA
            rw [alookupS, if_pos rfl]
            simp only [Option.some.injEq]
            constructor
            · rintro rfl
              exact ⟨List.mem_cons_self .., titles, hc, hs⟩
            · rintro ⟨-, titles', hc', hs'⟩
              have : titles' = titles := Except.ok.inj (hc'.symm.trans hc)
              subst this
              exact Except.ok.inj (hs.symm.trans hs')
          · rw [alookupS, if_neg hA]
            rw [buildHeadings_lookup rest ebc tl htl A ts]
            constructor
            · rintro ⟨hmem, w⟩
              exact ⟨List.mem_cons_of_mem _ hmem, w⟩
            · rintro ⟨hmem, w⟩
              rcases List.mem_cons.mp hmem with rfl | hmem0
              · exact absurd rfl hA
              · exact ⟨hmem0, w⟩

theorem buildOutlinks_lookup :
    ∀ (chs : List String) (ebc : List (String × List J)) outs,
      buildOutlinks ebc chs = .ok outs →
      ∀ (M : String) (ts : List J),
        alookupS outs M = some ts ↔
          (M ∈ chs ∧ M ≠ "Prologue" ∧ ∃ titles,
            collectFlaggedTitles "Aside Heading" ((alookupS ebc M).getD []) =
              .ok titles ∧ titles ≠ [] ∧ mkPySet titles = .ok ts)
  | [], ebc, outs, h, M, ts => by
    unfold buildOutlinks at h
    cases h
    simp [alookupS]
  | c :: rest, ebc, outs, h, M, ts => by
    unfold buildOutlinks at h
    by_cases hpro : c = "Prologue"
    · rw [if_pos hpro] at h
      rw [buildOutlinks_lookup rest ebc outs h M ts]
      constructor
      · rintro ⟨hmem, w⟩
        exact ⟨List.mem_cons_of_mem _ hmem, w⟩
      · rintro ⟨hmem, hM, w⟩
        rcases List.mem_cons.mp hmem with rfl | hmem0
        · exact absurd hpro hM
        · exact ⟨hmem0, hM, w⟩
    · rw [if_neg hpro] at h
      cases hc : collectFlaggedTitles "Aside Heading" ((alookupS ebc c).getD []) with
      | error u =>
        cases u
        rw [hc, exceptBind_err] at h
        cases h
      | ok titles =>
        rw [hc, exceptBind_ok] at h
        by_cases hemp : titles.isEmpty = true
        · rw [if_pos hemp] at h
          rw [buildOutlinks_lookup rest ebc outs h M ts]
          constructor
          · rintro ⟨hmem, w⟩
            exact ⟨List.mem_cons_of_mem _ hmem, w⟩
          · rintro ⟨hmem, hM, titles', hc', hne, hs'⟩
            rcases List.mem_cons.mp hmem with rfl | hmem0
            · have : titles' = titles := Except.ok.inj (hc'.symm.trans hc)
              subst this
              exact absurd (List.isEmpty_iff.mp hemp) hne
            · exact ⟨hmem0, hM, titles', hc', hne, hs'⟩
        · rw [if_neg hemp] at h
          cases hs : mkPySet titles with
          | error u =>
            cases u
            rw [hs, exceptBind_err] at h
            cases h
          | ok tset =>
            rw [hs, exceptBind_ok] at h
            cases htl : buildOutlinks ebc rest with
            | error u =>
              cases u
              rw [htl, exceptBind_err] at h
              cases h
            | ok tl =>
              rw [htl, exceptBind_ok, exceptPure_eq_ok] at h
              subst h
              by_cases hM : c = M
              · subst hM
                rw [alookupS, if_pos rfl]
                simp only [Option.some.injEq]
                constructor
                · rintro rfl
                  refine ⟨List.mem_cons_self .., hpro, titles, hc, ?_, hs⟩
                  intro hnil
                  rw [hnil] at hemp
                  exact hemp (by simp)
                · rintro ⟨-, -, titles', hc', hne', hs'⟩
                  have : titles' = titles := Except.ok.inj (hc'.symm.trans hc)
                  subst this
                  exact Except.ok.inj (hs.symm.trans hs')
              · rw [alookupS, if_neg hM]
                rw [buildOutlinks_lookup rest ebc tl htl M ts]
                constructor
                · rintro ⟨hmem, w⟩
                  exact ⟨List.mem_cons_of_mem _ hmem, w⟩
                · rintro ⟨hmem, hMp, w⟩
                  rcases List.mem_cons.mp hmem with rfl | hmem0
                  · exact absurd rfl hM
                  · exact ⟨hmem0, hMp, w⟩

theorem buildNodes_keys :
    ∀ (chs : List String) (ebc : List (String × List J)) nbc,
      buildNodes ebc chs = .ok nbc → nbc.map Prod.fst = chs
  | [], ebc, nbc, h => by
    unfold buildNodes at h
    cases h
    rfl
  | c :: rest, ebc, nbc, h => by
    unfold buildNodes at h
    cases hp : parse_entries_to_nodes ((alookupS ebc c).getD []) with
    | error u =>
      cases u
      rw [hp, exceptBind_err] at h
      cases h
    | ok ns =>
      rw [hp, exceptBind_ok] at h
      cases htl : buildNodes ebc rest with
      | error u =>
        cases u
        rw [htl, exceptBind_err] at h
        cases h
      | ok tl =>
        rw [htl, exceptBind_ok, exceptPure_eq_ok] at h
        subst h
        simpa using buildNodes_keys rest ebc tl htl

theorem mem_dedupKeys (a : String) : ∀ l : List String, a ∈ dedupKeys l ↔ a ∈ l
  | [] => by simp [dedupKeys]
  | x :: xs => by
    unfold dedupKeys
    rw [List.mem_cons, List.mem_cons]
    by_cases hax : a = x
    · simp [hax]
    · simp only [hax, false_or]
      rw [List.mem_filter]
      simp [hax, mem_dedupKeys a xs]

theorem intersectNonempty_iff (a b : List J) :
    intersectNonempty a b = true ↔ ∃ t, t ∈ a ∧ t ∈ b := by
  unfold intersectNonempty
  rw [List.any_eq_true]
  constructor
  · rintro ⟨x, hx, hb⟩
    rw [List.any_eq_true] at hb
    obtain ⟨y, hy, hxy⟩ := hb
    exact ⟨x, hx, ((J.beq_iff_eq x y).mp hxy) ▸ hy⟩
  · rintro ⟨t, ht, htb⟩
    exact ⟨t, ht, List.any_eq_true.mpr ⟨t, htb, J.beq_self t⟩⟩

theorem alookupS_cons_self {α : Type} (k : String) (v : α)
    (rest : List (String × α)) : alookupS ((k, v) :: rest) k = some v := by
  simp [alookupS]

theorem alookupS_cons_ne {α : Type} (k q : String) (v : α)
    (rest : List (String × α)) (h : k ≠ q) :
    alookupS ((k, v) :: rest) q = alookupS rest q := by
  simp [alookupS, h]

theorem buildMapping_keys_sub :
    ∀ (outs heads : List (String × List J)),
      (buildMapping outs heads).map Prod.fst ⊆ outs.map Prod.fst
  | [], heads => by simp [buildMapping]
  | (main, ot) :: rest, heads => by
    unfold buildMapping
    by_cases he : ((heads.filter (fun p => intersectNonempty ot p.snd)).map
        Prod.fst).isEmpty = true
    · rw [if_pos he]
      exact (buildMapping_keys_sub rest heads).trans (by simp)
    · rw [if_neg he]
      intro x hx
      simp only [List.map_cons, List.mem_cons] at hx
      rcases hx with rfl | hx0
      · simp
      · exact List.mem_cons_of_mem _ (buildMapping_keys_sub rest heads hx0)

theorem buildMapping_values_sub :
    ∀ (outs heads : List (String × List J)) (p : String × List String),
      p ∈ buildMapping outs heads → ∀ A ∈ p.snd, A ∈ heads.map Prod.fst
  | [], heads, p, hp => by simp [buildMapping] at hp
  | (main, ot) :: rest, heads, p, hp => by
    unfold buildMapping at hp
    by_cases he : ((heads.filter (fun p => intersectNonempty ot p.snd)).map
        Prod.fst).isEmpty = true
    · rw [if_pos he] at hp
      exact buildMapping_values_sub rest heads p hp
    · rw [if_neg he] at hp
      rcases List.mem_cons.mp hp with rfl | hp0
      · intro A hA
        simp only [List.mem_map] at hA ⊢
        obtain ⟨q, hq, rfl⟩ := hA
        exact ⟨q, List.mem_of_mem_filter hq, rfl⟩
      · exact buildMapping_values_sub rest heads p hp0

theorem buildMapping_lookup_mem (heads : List (String × List J)) :
    ∀ (outs : List (String × List J)),
      (outs.map Prod.fst).Nodup →
      ∀ (M A : String),
        (∃ asides, alookupS (buildMapping outs heads) M = some asides ∧
          A ∈ asides) ↔
        (∃ ts, alookupS outs M = some ts ∧
          ∃ p ∈ heads, p.fst = A ∧ intersectNonempty ts p.snd = true)
  | [], hnod, M, A => by simp [buildMapping, alookupS]
  | (main, ot) :: rest, hnod, M, A => by
    simp only [List.map_cons, List.nodup_cons] at hnod
    unfold buildMapping
    by_cases hM : main = M
    · subst hM
      have hrest : alookupS (buildMapping rest heads) main = none := by
        rw [alookupS_eq_none_iff]
        intro hmem
        exact hnod.1 (buildMapping_keys_sub rest heads hmem)
      by_cases he : ((heads.filter (fun p => intersectNonempty ot p.snd)).map
          Prod.fst).isEmpty = true
      · rw [if_pos he]
        rw [alookupS_cons_self]
        constructor
        · rintro ⟨asides, hl, hA⟩
          rw [hrest] at hl
          cases hl
        · rintro ⟨ts, hts, p, hp, rfl, hint⟩
          rw [Option.some.injEq] at hts
          subst hts
          have hmem2 : p.fst ∈ (heads.filter
              (fun q => intersectNonempty ot q.snd)).map Prod.fst :=
            List.mem_map.mpr ⟨p, List.mem_filter.mpr ⟨hp, hint⟩, rfl⟩
          rw [List.isEmpty_iff] at he
          rw [he] at hmem2
          cases hmem2
      · rw [if_neg he]
        rw [alookupS, if_pos rfl]
        constructor
        · rintro ⟨asides, hl, hA⟩
          rw [Option.some.injEq] at hl
          subst hl
          rw [List.mem_map] at hA
          obtain ⟨p, hp, rfl⟩ := hA
          exact ⟨ot, by rw [alookupS, if_pos rfl],
            p, List.mem_of_mem_filter hp, rfl, (List.mem_filter.mp hp).2⟩
        · rintro ⟨ts, hts, p, hp, rfl, hint⟩
          have : ts = ot := by
            rw [alookupS, if_pos rfl] at hts
            exact (Option.some.injEq .. ▸ hts).symm
          subst this
          exact ⟨_, rfl, List.mem_map.mpr ⟨p,
            List.mem_filter.mpr ⟨hp, hint⟩, rfl⟩⟩
    · rw [alookupS_cons_ne _ _ _ _ hM]
      by_cases he : ((heads.filter (fun p => intersectNonempty ot p.snd)).map
          Prod.fst).isEmpty = true
      · rw [if_pos he]
        exact buildMapping_lookup_mem heads rest hnod.2 M A
      · rw [if_neg he]
        rw [alookupS_cons_ne _ _ _ _ hM]
        exact buildMapping_lookup_mem heads rest hnod.2 M A

theorem build_model_inv (l : List J) (m : TimelineModel)
    (h : build_model_from_entries l = .ok m) :
    ∃ grouped, groupEntries [] l = .ok grouped ∧
    ∃ ebc, toStrKeyed grouped = .ok ebc ∧
    ∃ heads outs nbc,
      buildHeadings ebc (sortStr ((ebc.map Prod.fst).filter
        (fun ch => strStartsWith ch "Aside"))) = .ok heads ∧
      buildOutlinks ebc
        ((if (ebc.map Prod.fst).contains "Prologue" then ["Prologue"] else []) ++
          (sortStr (ebc.map Prod.fst)).filter
            (fun ch => strStartsWith ch "Chapter")) = .ok outs ∧
      buildNodes ebc (dedupKeys
        (((if (ebc.map Prod.fst).contains "Prologue" then ["Prologue"] else []) ++
          (sortStr (ebc.map Prod.fst)).filter
            (fun ch => strStartsWith ch "Chapter")) ++
         sortStr ((ebc.map Prod.fst).filter
            (fun ch => strStartsWith ch "Aside")))) = .ok nbc ∧
      m = { chapters :=
              (if (ebc.map Prod.fst).contains "Prologue" then ["Prologue"]
                else []) ++
              (sortStr (ebc.map Prod.fst)).filter
                (fun ch => strStartsWith ch "Chapter"),
            aside_chapters := sortStr ((ebc.map Prod.fst).filter
              (fun ch => strStartsWith ch "Aside")),
            entries_by_chapter := ebc,
            nodes_by_chapter := nbc,
            chapter_aside_mapping := buildMapping outs heads,
            headings_by_aside := heads,
            entry_count := l.length } := by
  unfold build_model_from_entries at h
  cases hg : groupEntries [] l with
  | error u =>
    cases u
    rw [hg, exceptBind_err] at h
    cases h
  | ok grouped =>
    rw [hg, exceptBind_ok] at h
    cases hs : toStrKeyed grouped with
    | error u =>
      cases u
      rw [hs, exceptBind_err] at h
      cases h
    | ok ebc =>
      rw [hs, exceptBind_ok] at h
      dsimp only [] at h
      cases hh : buildHeadings ebc (sortStr ((ebc.map Prod.fst).filter
          (fun ch => strStartsWith ch "Aside"))) with
      | error u =>
        cases u
        rw [hh, exceptBind_err] at h
        cases h
      | ok heads =>
        rw [hh, exceptBind_ok] at h
        cases ho : buildOutlinks ebc
            ((if (ebc.map Prod.fst).contains "Prologue" then ["Prologue"]
              else []) ++
              (sortStr (ebc.map Prod.fst)).filter
                (fun ch => strStartsWith ch "Chapter")) with
        | error u =>
          cases u
          rw [ho, exceptBind_err] at h
          cases h
        | ok outs =>
          rw [ho, exceptBind_ok] at h
          cases hn : buildNodes ebc (dedupKeys
              (((if (ebc.map Prod.fst).contains "Prologue" then ["Prologue"]
                else []) ++
                (sortStr (ebc.map Prod.fst)).filter
                  (fun ch => strStartsWith ch "Chapter")) ++
               sortStr ((ebc.map Prod.fst).filter
                  (fun ch => strStartsWith ch "Aside")))) with
          | error u =>
            cases u
            rw [hn, exceptBind_err] at h
            cases h
          | ok nbc =>
            rw [hn, exceptBind_ok, exceptPure_eq_ok] at h
            exact ⟨grouped, rfl, ebc, hs, heads, outs, nbc, hh, ho, hn, h.symm⟩

theorem alookupS_mem {α : Type} :
    ∀ (kvs : List (String × α)) (k : String) (v : α),
      alookupS kvs k = some v → (k, v) ∈ kvs
  | [], k, v, h => by cases h
  | (k0, v0) :: rest, k, v, h => by
    by_cases hk : k0 = k
    · subst hk
      rw [alookupS_cons_self, Option.some.injEq] at h
      subst h
      exact List.mem_cons_self ..
    · rw [alookupS_cons_ne _ _ _ _ hk] at h
      exact List.mem_cons_of_mem _ (alookupS_mem rest k v h)

theorem buildOutlinks_keys_sublist :
    ∀ (chs : List String) (ebc : List (String × List J)) outs,
      buildOutlinks ebc chs = .ok outs → (outs.map Prod.fst).Sublist chs
  | [], ebc, outs, h => by
    unfold buildOutlinks at h
    cases h
    simp
  | c :: rest, ebc, outs, h => by
    unfold buildOutlinks at h
    by_cases hpro : c = "Prologue"
    · rw [if_pos hpro] at h
      exact (buildOutlinks_keys_sublist rest ebc outs h).trans (by simp)
    · rw [if_neg hpro] at h
      cases hc : collectFlaggedTitles "Aside Heading" ((alookupS ebc c).getD []) with
      | error u =>
        cases u
        rw [hc, exceptBind_err] at h
        cases h
      | ok titles =>
        rw [hc, exceptBind_ok] at h
        by_cases hemp : titles.isEmpty = true
        · rw [if_pos hemp] at h
          exact (buildOutlinks_keys_sublist rest ebc outs h).trans (by simp)
        · rw [if_neg hemp] at h
          cases hs : mkPySet titles with
          | error u =>
            cases u
            rw [hs, exceptBind_err] at h
            cases h
          | ok tset =>
            rw [hs, exceptBind_ok] at h
            cases htl : buildOutlinks ebc rest with
            | error u =>
              cases u
              rw [htl, exceptBind_err] at h
              cases h
            | ok tl =>
              rw [htl, exceptBind_ok, exceptPure_eq_ok] at h
              subst h
              simpa using (buildOutlinks_keys_sublist rest ebc tl htl).cons₂ c

theorem buildOutlinks_complete :
    ∀ (chs : List String) (ebc : List (String × List J)) outs,
      buildOutlinks ebc chs = .ok outs →
      ∀ c ∈ chs, c ≠ "Prologue" →
      ∀ titles,
        collectFlaggedTitles "Aside Heading" ((alookupS ebc c).getD []) =
          .ok titles → titles ≠ [] →
        alookupS outs c = some titles
  | [], ebc, outs, h, c, hc, hnp, titles, hcol, hne => by cases hc
  | c0 :: rest, ebc, outs, h, c, hc, hnp, titles, hcol, hne => by
    unfold buildOutlinks at h
    rcases List.mem_cons.mp hc with rfl | hc0
    · rw [if_neg hnp] at h
      rw [hcol, exceptBind_ok] at h
      rw [if_neg (by simpa using hne)] at h
      cases hs : mkPySet titles with
      | error u =>
        cases u
        rw [hs, exceptBind_err] at h
        cases h
      | ok tset =>
        rw [hs, exceptBind_ok] at h
        cases htl : buildOutlinks ebc rest with
        | error u =>
          cases u
          rw [htl, exceptBind_err] at h
          cases h
        | ok tl =>
          rw [htl, exceptBind_ok, exceptPure_eq_ok] at h
          subst h
          obtain ⟨-, rfl⟩ := mkPySet_eq_ok.mp hs
          exact alookupS_cons_self ..
    · by_cases hpro : c0 = "Prologue"
      · rw [if_pos hpro] at h
        exact buildOutlinks_complete rest ebc outs h c hc0 hnp titles hcol hne
      · rw [if_neg hpro] at h
        cases hc' : collectFlaggedTitles "Aside Heading"
            ((alookupS ebc c0).getD []) with
        | error u =>
          cases u
          rw [hc', exceptBind_err] at h
          cases h
        | ok titles0 =>
          rw [hc', exceptBind_ok] at h
          by_cases hemp : titles0.isEmpty = true
          · rw [if_pos hemp] at h
            exact buildOutlinks_complete rest ebc outs h c hc0 hnp titles hcol hne
          · rw [if_neg hemp] at h
            cases hs : mkPySet titles0 with
            | error u =>
              cases u
              rw [hs, exceptBind_err] at h
              cases h
            | ok tset =>
              rw [hs, exceptBind_ok] at h
              cases htl : buildOutlinks ebc rest with
              | error u =>
                cases u
                rw [htl, exceptBind_err] at h
                cases h
              | ok tl =>
                rw [htl, exceptBind_ok, exceptPure_eq_ok] at h
                subst h
                by_cases hcc : c0 = c
                · subst hcc
                  obtain ⟨-, rfl⟩ := mkPySet_eq_ok.mp hs
                  rw [alookupS_cons_self, Option.some.injEq]
                  exact Except.ok.inj (hc'.symm.trans hcol)
                · rw [alookupS_cons_ne _ _ _ _ hcc]
                  exact buildOutlinks_complete rest ebc tl htl c hc0 hnp
                    titles hcol hne

theorem build_group_facts (l : List J) (grouped : List (J × List J))
    (ebc : List (String × List J)) (hg : groupEntries [] l = .ok grouped)
    (hs : toStrKeyed grouped = .ok ebc) :
    (ebc.map Prod.fst).Nodup ∧
    (∀ s : String, s ∈ ebc.map Prod.fst ↔
      ∃ e ∈ l, chapterOf e = .ok (.str s) ∧ s ≠ "") ∧
    (∀ (s : String) (e' : J),
      (∃ es, alookupS ebc s = some es ∧ e' ∈ es) ↔
        (e' ∈ l ∧ chapterOf e' = .ok (.str s) ∧ s ≠ "")) := by
  have heq := toStrKeyed_eq grouped ebc hs
  subst heq
  have htruthy : ∀ s : String, (J.str s).truthy = true ↔ s ≠ "" := by
    intro s
    simp [J.truthy]
  refine ⟨nodup_strKeyed ebc (groupEntries_nodup l [] _ hg (by simp)), ?_, ?_⟩
  · intro s
    have hk := groupEntries_keys l [] _ hg (.str s)
    simp only [List.map_nil, List.not_mem_nil, false_or] at hk
    rw [keys_strKeyed] at hk
    constructor
    · intro hmem
      obtain ⟨e, he, hch, htr⟩ := hk.mp (List.mem_map_of_mem _ hmem)
      exact ⟨e, he, hch, (htruthy s).mp htr⟩
    · rintro ⟨e, he, hch, hs0⟩
      have := hk.mpr ⟨e, he, hch, (htruthy s).mpr hs0⟩
      rw [List.mem_map] at this
      obtain ⟨s', hs', heq⟩ := this
      cases heq
      exact hs'
  · intro s e'
    have hm := groupEntries_mem l [] _ hg (.str s) e'
    constructor
    · intro hx
      rcases hm.mp (by rw [jalookup_strKeyed]; exact hx) with
        ⟨es, h0, -⟩ | ⟨he, hch, htr⟩
      · exact absurd h0 (by simp [jalookup])
      · exact ⟨he, hch, (htruthy s).mp htr⟩
    · rintro ⟨he, hch, hs0⟩
      have hy := hm.mpr (.inr ⟨he, hch, (htruthy s).mpr hs0⟩)
      rw [jalookup_strKeyed] at hy
      exact hy

/-- C4: when at least one record resolves to the prologue chapter label,
the built model's main-chapter list has "Prologue" at index 0 — for every
input order, since the statement quantifies over all input lists and the
ordering is additionally invariant under permutation of the input — and the
remaining entries are exactly the observed labels with the "Chapter" prefix,
without duplicates, in lexicographic (code-point) order. -/
theorem C4_prologue_first (l : List J) (m : TimelineModel)
    (h : build_model_from_entries l = .ok m)
    (hp : ∃ e ∈ l, chapterOf e = .ok (.str "Prologue")) :
    m.chapters.head? = some "Prologue" ∧
    List.Pairwise (fun a b => strLe a b = true) m.chapters.tail ∧
    m.chapters.tail.Nodup ∧
    (∀ ch, ch ∈ m.chapters.tail ↔
      (ch ∈ m.entries_by_chapter.map Prod.fst ∧
        strStartsWith ch "Chapter" = true)) ∧
    (∀ l' m', l.Perm l' → build_model_from_entries l' = .ok m' →
      m'.chapters = m.chapters) := by
  obtain ⟨g, hg, ebc, hs, heads, outs, nbc, hh, ho, hn, hm⟩ := build_model_inv l m h
  subst hm
  obtain ⟨hnod, hkeys, hentries⟩ := build_group_facts l g ebc hg hs
  have hpk : "Prologue" ∈ ebc.map Prod.fst := by
    obtain ⟨e, he, hch⟩ := hp
    exact (hkeys "Prologue").mpr ⟨e, he, hch, by decide⟩
  have hcont : (ebc.map Prod.fst).contains "Prologue" = true :=
    List.elem_iff.mpr hpk
  refine ⟨?_, ?_, ?_, ?_, ?_⟩
  · simp only [hcont, if_pos, List.cons_append, List.nil_append,
      List.head?_cons]
  · simp only [hcont, if_pos, List.cons_append, List.nil_append, List.tail_cons]
    exact (sortStr_sorted (ebc.map Prod.fst)).filter _
  · simp only [hcont, if_pos, List.cons_append, List.nil_append, List.tail_cons]
    exact (nodup_sortStr _ hnod).filter _
  · intro ch
    simp only [hcont, if_pos, List.cons_append, List.nil_append, List.tail_cons]
    rw [List.mem_filter, mem_sortStr]
  · intro l' m' hperm h'
    obtain ⟨g', hg', ebc', hs', heads', outs', nbc', hh', ho', hn', hm'⟩ :=
      build_model_inv l' m' h'
    subst hm'
    obtain ⟨hnod', hkeys', -⟩ := build_group_facts l' g' ebc' hg' hs'
    have hmemiff : ∀ s, s ∈ ebc'.map Prod.fst ↔ s ∈ ebc.map Prod.fst := by
      intro s
      rw [hkeys' s, hkeys s]
      constructor
      · rintro ⟨e, he, w⟩
        exact ⟨e, hperm.mem_iff.mpr he, w⟩
      · rintro ⟨e, he, w⟩
        exact ⟨e, hperm.mem_iff.mp he, w⟩
    have hperm2 : (ebc'.map Prod.fst).Perm (ebc.map Prod.fst) :=
      (List.perm_ext_iff_of_nodup hnod' hnod).mpr hmemiff
    have hsort : sortStr (ebc'.map Prod.fst) = sortStr (ebc.map Prod.fst) :=
      sortStr_eq_of_perm hperm2
    have hpk' : "Prologue" ∈ ebc'.map Prod.fst := hperm2.mem_iff.mpr hpk
    have hcont2 : (ebc'.map Prod.fst).contains "Prologue" = true :=
      List.elem_iff.mpr hpk'
    simp only [hcont, hcont2, if_pos, hsort]

/-- C4 witness: the sample record list (which contains a "Prologue" record,
listed last) yields a main-chapter list headed by "Prologue". -/
theorem C4_prologue_first_witness :
    (modelOf sampleEntries).chapters.head? = some "Prologue" ∧
    (modelOf sampleEntries).chapters = ["Prologue", "Chapter 5"] :=
  ⟨(C4_prologue_first sampleEntries (modelOf sampleEntries) rfl
      ⟨sampleEntry "P1" "Prologue Start" "Prologue" none false false [],
        by simp [sampleEntries], rfl⟩).1,
   rfl⟩

/-- C9: a record whose chapter label is non-empty but matches no naming
convention (not "Prologue", no "Chapter" prefix, no "Aside" prefix) is kept
in the model's per-chapter raw record lists under that label, yet the label
appears in neither the main-chapter list, the aside list, the per-chapter
node maps, nor the chapter-aside mapping (as key or as value). -/
theorem C9_offconvention_chapter (l : List J) (m : TimelineModel)
    (h : build_model_from_entries l = .ok m) (e : J) (ch : String)
    (he : e ∈ l) (hch : chapterOf e = .ok (.str ch)) (hne : ch ≠ "")
    (hnp : ch ≠ "Prologue")
    (hnc : strStartsWith ch "Chapter" = false)
    (hna : strStartsWith ch "Aside" = false) :
    (∃ es, alookupS m.entries_by_chapter ch = some es ∧ e ∈ es) ∧
    ch ∉ m.chapters ∧
    ch ∉ m.aside_chapters ∧
    alookupS m.nodes_by_chapter ch = none ∧
    alookupS m.chapter_aside_mapping ch = none ∧
    (∀ p ∈ m.chapter_aside_mapping, ch ∉ p.snd) := by
  obtain ⟨g, hg, ebc, hs, heads, outs, nbc, hh, ho, hn, hm⟩ := build_model_inv l m h
  subst hm
  obtain ⟨hnod, hkeys, hentries⟩ := build_group_facts l g ebc hg hs
  have hmainmem : ∀ x : String,
      x ∈ (if (ebc.map Prod.fst).contains "Prologue" = true then ["Prologue"]
        else []) → x = "Prologue" := by
    intro x hx
    by_cases hc : (ebc.map Prod.fst).contains "Prologue" = true
    · rw [if_pos hc] at hx
      simpa using hx
    · rw [if_neg hc] at hx
      cases hx
  have hnotch : ch ∉
      (if (ebc.map Prod.fst).contains "Prologue" = true then ["Prologue"]
        else []) ++
      (sortStr (ebc.map Prod.fst)).filter (fun c => strStartsWith c "Chapter") := by
    intro hmem
    rcases List.mem_append.mp hmem with h1 | h2
    · exact hnp (hmainmem ch h1)
    · have := (List.mem_filter.mp h2).2
      rw [hnc] at this
      cases this
  have hnotaside : ch ∉
      sortStr ((ebc.map Prod.fst).filter (fun c => strStartsWith c "Aside")) := by
    intro hmem
    have := (List.mem_filter.mp ((mem_sortStr _ _).mp hmem)).2
    rw [hna] at this
    cases this
  refine ⟨(hentries ch e).mpr ⟨he, hch, hne⟩, hnotch, hnotaside, ?_, ?_, ?_⟩
  · rw [alookupS_eq_none_iff, buildNodes_keys _ ebc nbc hn]
    intro hmem
    rcases List.mem_append.mp ((mem_dedupKeys ch _).mp hmem) with h1 | h2
    · exact hnotch h1
    · exact hnotaside h2
  · rw [alookupS_eq_none_iff]
    intro hmem
    have hout : ch ∈ outs.map Prod.fst := buildMapping_keys_sub outs heads hmem
    obtain ⟨ts, hts⟩ := (alookupS_isSome_iff_mem outs ch).mpr hout
    have := (buildOutlinks_lookup _ ebc outs ho ch ts).mp hts
    exact hnotch this.1
  · intro p hp hA
    have := buildMapping_values_sub outs heads p hp ch hA
    rw [buildHeadings_keys _ ebc heads hh] at this
    exact hnotaside this

/-- C9 witness: an "Interlude" record is kept under its label in the raw
per-chapter lists but surfaces nowhere else in the model. -/
theorem C9_offconvention_chapter_witness :
    (∃ es, alookupS (modelOf interludeEntries).entries_by_chapter "Interlude" =
      some es ∧ sampleEntry "I1" "Lost" "Interlude" none false false [] ∈ es) ∧
    "Interlude" ∉ (modelOf interludeEntries).chapters ∧
    "Interlude" ∉ (modelOf interludeEntries).aside_chapters ∧
    alookupS (modelOf interludeEntries).nodes_by_chapter "Interlude" = none ∧
    alookupS (modelOf interludeEntries).chapter_aside_mapping "Interlude" = none ∧
    (∀ p ∈ (modelOf interludeEntries).chapter_aside_mapping,
      "Interlude" ∉ p.snd) :=
  C9_offconvention_chapter interludeEntries (modelOf interludeEntries) rfl
    (sampleEntry "I1" "Lost" "Interlude" none false false []) "Interlude"
    (by simp [interludeEntries]) rfl (by decide) (by decide) rfl rfl

theorem alookupS_of_mem_nodup {α : Type} :
    ∀ (kvs : List (String × α)), (kvs.map Prod.fst).Nodup →
      ∀ p ∈ kvs, alookupS kvs p.fst = some p.snd
  | [], _, p, hp => by cases hp
  | (k0, v0) :: rest, hnod, p, hp => by
    simp only [List.map_cons, List.nodup_cons] at hnod
    rcases List.mem_cons.mp hp with rfl | hp0
    · exact alookupS_cons_self ..
    · have hne : k0 ≠ p.fst := by
        intro hk
        exact hnod.1 (hk ▸ List.mem_map_of_mem Prod.fst hp0)
      rw [alookupS_cons_ne _ _ _ _ hne]
      exact alookupS_of_mem_nodup rest hnod.2 p hp0

theorem buildOutlinks_collect_ok :
    ∀ (chs : List String) (ebc : List (String × List J)) outs,
      buildOutlinks ebc chs = .ok outs →
      ∀ c ∈ chs, c ≠ "Prologue" →
      ∃ titles, collectFlaggedTitles "Aside Heading"
        ((alookupS ebc c).getD []) = .ok titles
  | [], ebc, outs, h, c, hc, hnp => by cases hc
  | c0 :: rest, ebc, outs, h, c, hc, hnp => by
    unfold buildOutlinks at h
    rcases List.mem_cons.mp hc with rfl | hc0
    · rw [if_neg hnp] at h
      cases hcol : collectFlaggedTitles "Aside Heading"
          ((alookupS ebc c).getD []) with
      | error u =>
        cases u
        rw [hcol, exceptBind_err] at h
        cases h
      | ok titles => exact ⟨titles, rfl⟩
    · by_cases hpro : c0 = "Prologue"
      · rw [if_pos hpro] at h
        exact buildOutlinks_collect_ok rest ebc outs h c hc0 hnp
      · rw [if_neg hpro] at h
        cases hcol : collectFlaggedTitles "Aside Heading"
            ((alookupS ebc c0).getD []) with
        | error u =>
          cases u
          rw [hcol, exceptBind_err] at h
          cases h
        | ok titles0 =>
          rw [hcol, exceptBind_ok] at h
          by_cases hemp : titles0.isEmpty = true
          · rw [if_pos hemp] at h
            exact buildOutlinks_collect_ok rest ebc outs h c hc0 hnp
          · rw [if_neg hemp] at h
            cases hs : mkPySet titles0 with
            | error u =>
              cases u
              rw [hs, exceptBind_err] at h
              cases h
            | ok tset =>
              rw [hs, exceptBind_ok] at h
              cases htl : buildOutlinks ebc rest with
              | error u =>
                cases u
                rw [htl, exceptBind_err] at h
                cases h
              | ok tl =>
                exact buildOutlinks_collect_ok rest ebc tl htl c hc0 hnp

/-- C1: an aside chapter A stands in the built model's chapter-aside mapping
entry for M exactly when M is a non-prologue main chapter, A an aside
chapter, and some title t is shared between M's records flagged
"Aside Heading" and A's records flagged "Chapter Heading" (titles resolved
as Name, else Title, else "Untitled"). -/
theorem C1_chapter_aside_mapping_iff (l : List J) (m : TimelineModel)
    (h : build_model_from_entries l = .ok m) (M A : String) :
    (∃ asides, alookupS m.chapter_aside_mapping M = some asides ∧ A ∈ asides) ↔
    (M ∈ m.chapters ∧ M ≠ "Prologue" ∧ A ∈ m.aside_chapters ∧
     ∃ t, flaggedTitleIn m M "Aside Heading" t ∧
          flaggedTitleIn m A "Chapter Heading" t) := by
  obtain ⟨g, hg, ebc, hs, heads, outs, nbc, hh, ho, hn, hm⟩ := build_model_inv l m h
  subst hm
  obtain ⟨hnod, hkeys, hentries⟩ := build_group_facts l g ebc hg hs
  have hfilnodup : ((sortStr (ebc.map Prod.fst)).filter
      (fun c => strStartsWith c "Chapter")).Nodup :=
    (nodup_sortStr _ hnod).filter _
  have hchnodup : ((if (ebc.map Prod.fst).contains "Prologue" = true
      then ["Prologue"] else []) ++
      (sortStr (ebc.map Prod.fst)).filter
        (fun c => strStartsWith c "Chapter")).Nodup := by
    by_cases hc : (ebc.map Prod.fst).contains "Prologue" = true
    · rw [if_pos hc]
      refine List.Nodup.cons ?_ hfilnodup
      intro hmem
      have := (List.mem_filter.mp hmem).2
      exact absurd this (by decide)
    · rw [if_neg hc]
      simpa using hfilnodup
  have houtnodup : (outs.map Prod.fst).Nodup :=
    hchnodup.sublist (buildOutlinks_keys_sublist _ ebc outs ho)
  have hasnodup : ((sortStr ((ebc.map Prod.fst).filter
      (fun c => strStartsWith c "Aside")))).Nodup :=
    nodup_sortStr _ (hnod.filter _)
  have hheadnodup : (heads.map Prod.fst).Nodup := by
    rw [buildHeadings_keys _ ebc heads hh]
    exact hasnodup
  dsimp only []
  rw [buildMapping_lookup_mem heads outs houtnodup M A]
  constructor
  · rintro ⟨ts, hts, p, hp, hpA, hint⟩
    obtain ⟨hMch, hMnp, titlesM, hcolM, hMne, hsetM⟩ :=
      (buildOutlinks_lookup _ ebc outs ho M ts).mp hts
    obtain ⟨-, rfl⟩ := mkPySet_eq_ok.mp hsetM
    have hpl : alookupS heads p.fst = some p.snd :=
      alookupS_of_mem_nodup heads hheadnodup p hp
    obtain ⟨hAmem, titlesA, hcolA, hsetA⟩ :=
      (buildHeadings_lookup _ ebc heads hh p.fst p.snd).mp hpl
    obtain ⟨-, rfl⟩ := mkPySet_eq_ok.mp hsetA
    obtain ⟨t, htM, htA⟩ := (intersectNonempty_iff _ _).mp hint
    refine ⟨hMch, hMnp, hpA ▸ hAmem, t, ?_, ?_⟩
    · exact (collectFlaggedTitles_mem _ _ _ hcolM t).mp htM
    · exact hpA ▸ (collectFlaggedTitles_mem _ _ _ hcolA t).mp htA
  · rintro ⟨hMch, hMnp, hAas, t, hfM, hfA⟩
    obtain ⟨titlesM, hcolM⟩ :=
      buildOutlinks_collect_ok _ ebc outs ho M hMch hMnp
    have htM : t ∈ titlesM :=
      (collectFlaggedTitles_mem _ _ _ hcolM t).mpr hfM
    have hAk : A ∈ heads.map Prod.fst := by
      rw [buildHeadings_keys _ ebc heads hh]
      exact hAas
    obtain ⟨tsA, htsA⟩ := (alookupS_isSome_iff_mem heads A).mpr hAk
    obtain ⟨-, titlesA, hcolA, hsetA⟩ :=
      (buildHeadings_lookup _ ebc heads hh A tsA).mp htsA
    obtain ⟨-, rfl⟩ := mkPySet_eq_ok.mp hsetA
    have htA : t ∈ tsA :=
      (collectFlaggedTitles_mem _ _ _ hcolA t).mpr hfA
    refine ⟨titlesM,
      buildOutlinks_complete _ ebc outs ho M hMch hMnp titlesM hcolM
        (List.ne_nil_of_mem htM), ?_⟩
    exact ⟨(A, tsA), alookupS_mem heads A tsA htsA, rfl,
      (intersectNonempty_iff _ _).mpr ⟨t, htM, htA⟩⟩

/-- C1 witness: on the sample records, the mapping entry of "Chapter 5"
holds "Aside 1 - Notes", and by the theorem this yields the shared flagged
title (here "Shared Title") between the two chapters. -/
theorem C1_chapter_aside_mapping_iff_witness :
    "Chapter 5" ∈ (modelOf sampleEntries).chapters ∧
    "Chapter 5" ≠ "Prologue" ∧
    "Aside 1 - Notes" ∈ (modelOf sampleEntries).aside_chapters ∧
    ∃ t, flaggedTitleIn (modelOf sampleEntries) "Chapter 5" "Aside Heading" t ∧
      flaggedTitleIn (modelOf sampleEntries) "Aside 1 - Notes"
        "Chapter Heading" t :=
  (C1_chapter_aside_mapping_iff sampleEntries (modelOf sampleEntries) rfl
      "Chapter 5" "Aside 1 - Notes").mp
    ⟨["Aside 1 - Notes"], rfl, by simp⟩

theorem exceptBind_pure {α β : Type} (a : α) (f : α → Except Unit β) :
    ((pure a : Except Unit α) >>= f) = f a := rfl

theorem strAppend_assoc (a b c : String) : a ++ b ++ c = a ++ (b ++ c) := by
  apply String.ext
  show (a.data ++ b.data) ++ c.data = a.data ++ (b.data ++ c.data)
  exact List.append_assoc a.data b.data c.data

theorem pyStr_str (s : String) : (J.str s).pyStr = s := rfl

theorem chapterRef_truthy (X : String) :
    (J.str ("?chapter=" ++ X)).truthy = true := by
  simp only [J.truthy, bne_iff_ne, ne_eq, decide_not]
  intro hcontra
  have hdata := congrArg String.data hcontra
  simp only [show ("?chapter=" ++ X).data = ("?chapter=").data ++ X.data from rfl] at hdata
  cases hdata

theorem nodeUrlOutlink_rewrites (epbi : List (J × J))
    (athl : List (String × List J)) (nid : J) (node : EventNode)
    (props ah : J) (A : String)
    (hprops : jalookup epbi nid = some props)
    (hptr : props.truthy = true)
    (hah : extract_property_value props "Aside Heading" = .ok ah)
    (hahtr : ah.truthy = true)
    (hurl : node.url.truthy = true)
    (hfind : find_aside_for_title (some athl) node.title = some A) :
    nodeUrlOutlink epbi (some athl) nid node =
      pure (J.str ("?chapter=" ++ replaceChars A ' ' "%20"), true) := by
  have hne : epbi.isEmpty = false := by
    cases epbi with
    | nil => cases hprops
    | cons p rest => rfl
  unfold nodeUrlOutlink
  rw [hne]
  simp only [Bool.not_false, if_true, hprops, hptr, hah, hahtr, hurl,
    Bool.and_self, exceptBind_ok, hfind]

/-- C8: in the generated diagram, a node whose underlying record (found in
the entry context by id) is flagged aside-outlink, whose url is truthy, and
whose title belongs to some aside's heading-title set, is emitted with an
in-app navigation href `?chapter=<aside>` (spaces URL-encoded) and target
`_self` instead of its original url, and its label carries the
internal-link marker "🔗 ". -/
theorem C8_aside_outlink_internal_href
    (fill : String → Nat → String) (is_simple_graph is_aside : Bool)
    (event_color font_color edge_color : String)
    (epbi : List (J × J)) (athl : List (String × List J))
    (dot_id : String) (nid : J) (node : EventNode)
    (t : String) (props ah : J) (A : String)
    (htitle : node.title = .str t)
    (hprops : jalookup epbi nid = some props)
    (hptr : props.truthy = true)
    (hah : extract_property_value props "Aside Heading" = .ok ah)
    (hahtr : ah.truthy = true)
    (hurl : node.url.truthy = true)
    (hfind : find_aside_for_title (some athl) node.title = some A) :
    (∃ p ∈ athl, p.fst = A ∧ node.title ∈ p.snd) ∧
    nodeLine fill is_simple_graph is_aside event_color font_color edge_color
        epbi (some athl) dot_id nid node =
      .ok (if node.is_chapter_heading.truthy then
        "    " ++ dot_id ++ " [label=\"" ++ "🔗 " ++ dotEscape (fill t 30) ++
        "\", fillcolor=\"#f5f5f5\", fontcolor=" ++ font_color ++
        ", penwidth=1, fontsize=" ++
        toString ((if is_simple_graph || is_aside then 12 else 11) + 2 : Nat) ++
        ", href=\"" ++ "?chapter=" ++ replaceChars A ' ' "%20" ++
        "\", target=\"" ++ "_self" ++ "\", tooltip=\"" ++
        replaceChars (fill t 30) '\n' " " ++
        "\", color=\"#000000\", fontweight=\"bold\"];"
      else
        "    " ++ dot_id ++ " [label=\"" ++ "🔗 " ++ dotEscape (fill t 30) ++
        "\", fillcolor=\"" ++ event_color ++ "\", fontcolor=" ++ font_color ++
        ", fontsize=" ++
        toString (if is_simple_graph || is_aside then 12 else 11 : Nat) ++
        ", href=\"" ++ "?chapter=" ++ replaceChars A ' ' "%20" ++
        "\", target=\"" ++ "_self" ++ "\", tooltip=\"" ++
        replaceChars (fill t 30) '\n' " " ++
        "\", color=\"" ++ edge_color ++ "\"];") := by
  constructor
  · unfold find_aside_for_title at hfind
    dsimp only [] at hfind
    by_cases hl : athl.isEmpty = true
    · rw [if_pos hl] at hfind
      cases hfind
    · rw [if_neg hl] at hfind
      rcases hf : athl.find? (fun p => p.snd.any (fun x => J.beq node.title x)) with
        _ | q
      · rw [hf] at hfind
        cases hfind
      · rw [hf] at hfind
        have hq := List.find?_some hf
        obtain ⟨t0, ht0mem, ht0beq⟩ := List.any_eq_true.mp hq
        refine ⟨q, List.mem_of_find?_eq_some hf, by simpa using hfind, ?_⟩
        exact ((J.beq_iff_eq node.title t0).mp ht0beq) ▸ ht0mem
  · unfold nodeLine
    rw [htitle]
    dsimp only []
    rw [exceptBind_ok,
      nodeUrlOutlink_rewrites epbi athl nid node props ah A hprops hptr hah
        hahtr hurl hfind, exceptBind_pure]
    dsimp only []
    unfold emitNodeLine
    simp only [chapterRef_truthy, if_true, pyStr_str, strAppend_assoc]
    rfl

theorem C8_aside_outlink_internal_href_witness :
    (∃ p ∈ [("Aside 1", [J.str "Event A"])], p.fst = "Aside 1" ∧
      J.str "Event A" ∈ p.snd) ∧
    nodeLine (fun s _ => s) false false "ec" "fc" "gc"
        [(J.str "id1", J.obj [("Aside Heading",
          J.obj [("type", J.str "checkbox"), ("checkbox", J.bool true)])])]
        (some [("Aside 1", [J.str "Event A"])]) "n0" (J.str "id1")
        ⟨J.str "id1", J.str "Event A", J.str "http://x", J.bool false, [], []⟩ =
      .ok ("    " ++ "n0" ++ " [label=\"" ++ "🔗 " ++ dotEscape "Event A" ++
        "\", fillcolor=\"" ++ "ec" ++ "\", fontcolor=" ++ "fc" ++
        ", fontsize=" ++ toString (11 : Nat) ++
        ", href=\"" ++ "?chapter=" ++ replaceChars "Aside 1" ' ' "%20" ++
        "\", target=\"" ++ "_self" ++ "\", tooltip=\"" ++
        replaceChars "Event A" '\n' " " ++
        "\", color=\"" ++ "gc" ++ "\"];") :=
  C8_aside_outlink_internal_href (fun s _ => s) false false "ec" "fc" "gc"
    [(J.str "id1", J.obj [("Aside Heading",
      J.obj [("type", J.str "checkbox"), ("checkbox", J.bool true)])])]
    [("Aside 1", [J.str "Event A"])] "n0" (J.str "id1")
    ⟨J.str "id1", J.str "Event A", J.str "http://x", J.bool false, [], []⟩
    "Event A" (J.obj [("Aside Heading",
      J.obj [("type", J.str "checkbox"), ("checkbox", J.bool true)])])
    (J.bool true) "Aside 1" rfl rfl rfl rfl rfl rfl rfl
